import Mathlib

/-!
# Portfolio backend (`server/db.go`, `server/main.go`)

A shallow embedding of the persistence layer (`LoadJSONToDB`, `GetAllPortfolio`,
`InsertPortfolio`) and of the `/api/portfolio` handler, with the parts of
`encoding/json`, `database/sql` + SQLite and the file system they call.

Conventions.
* A Go `float64` is only stored and moved around, never computed with: it is a finite
  value (a rational number), an infinity or NaN.
* A Go `error` result is an `Option Err` (`none` is `nil`).
* Whether a call into the database engine or the file system fails is not decided by
  the program; each such call takes its outcome (`none`: it works) as an argument.
-/

namespace Portfolio

/-! ## Data model -/

/-- A value of Go's `float64`: a finite value, `+Inf`, `-Inf` or NaN. -/
inductive Float64 where
  | fin (q : ℚ)
  | posInf
  | negInf
  | nan
  deriving DecidableEq, Repr

/-- A numeral is the finite value it denotes. -/
instance (n : Nat) : OfNat Float64 n := ⟨Float64.fin n⟩

/-- A decimal literal is the finite value it denotes. -/
instance : OfScientific Float64 :=
  ⟨fun m s e => Float64.fin (OfScientific.ofScientific m s e)⟩

/-- Error values returned by the library calls the program makes. -/
inductive Err where
  /-- `ioutil.ReadFile` failed. -/
  | readFile
  /-- `json.Unmarshal`: the bytes are not valid JSON (`*json.SyntaxError`). -/
  | jsonSyntax
  /-- `json.Unmarshal`: a JSON value does not fit the Go type (`*json.UnmarshalTypeError`). -/
  | jsonType
  /-- `json.Marshal`: a value cannot be encoded. -/
  | jsonUnsupported
  /-- An error reported by the database engine, with its result code. -/
  | sql (code : Nat)
  /-- `http.ErrMissingFile` and other request errors. -/
  | http (msg : String)
  /-- A file system error. -/
  | fs (msg : String)
  deriving DecidableEq, Repr

/-- SQLite's result code `SQLITE_FULL`. -/
def sqliteFull : Err := Err.sql 13

/-- The struct `PortfolioItem` of `db.go`. -/
structure PortfolioItem where
  ID : Int
  Title : String
  Category : String
  Prix : Float64
  Img : String
  deriving DecidableEq, Repr

/-- The zero value of `PortfolioItem`. -/
def PortfolioItem.zero : PortfolioItem := ⟨0, "", "", 0, ""⟩

/-! ## `encoding/json` -/

/-- A JSON number literal, given by what `strconv.ParseFloat(lit, 64)` and
`strconv.ParseInt(lit, 10, 64)` make of it (`none`: the conversion fails, as
`ParseFloat` does on `1e999` and `ParseInt` on `7.5`). A JSON number has no form for NaN or an
infinity, so a literal that is converted has a finite value. -/
structure NumLit where
  float64 : Option ℚ
  int64 : Option Int
  deriving DecidableEq, Repr

/-- A JSON document. An object is the list of its members in the order they are written. -/
inductive JSON where
  | null
  | bool (b : Bool)
  | num (n : NumLit)
  | str (s : String)
  | arr (elems : List JSON)
  | obj (members : List (String × JSON))

/-- The literal that `json.Marshal` writes for a finite `float64`: the shortest decimal that
parses back to the same value; it is an integer literal exactly when the value is an integer
(in the `int64` range the form has no exponent). -/
def marshalFloat64 (f : ℚ) : NumLit :=
  { float64 := some f
    int64 := if f.den = 1 ∧ -9223372036854775808 ≤ f.num ∧ f.num ≤ 9223372036854775807
             then some f.num else none }

/-- The literal that `json.Marshal` writes for an `int`. -/
def marshalInt (i : Int) : NumLit :=
  { float64 := some (i : ℚ), int64 := some i }

/-- The fields of `PortfolioItem` that have a JSON name. -/
inductive Field where
  | id | title | category | prix | img
  deriving DecidableEq, Repr

/-- The JSON name of each field, from the struct tags, in declaration order. -/
def fieldNames : List (String × Field) :=
  [("id", Field.id), ("title", Field.title), ("category", Field.category),
   ("prix", Field.prix), ("img", Field.img)]

/-- Case folding of an object key. The field names are ASCII letters other than `k` and `s`,
for which Unicode simple folding coincides with ASCII case folding. -/
def foldName (s : String) : List Char := s.data.map Char.toLower

/-- Whether `key` equals the field name `name` up to letter case. -/
def equalFold (name key : String) : Bool := foldName name == foldName key

/-- The struct field an object key is decoded into: "preferring an exact match but also
accepting a case-insensitive match"; `none` when the key is ignored. -/
def findField (key : String) : Option Field :=
  match fieldNames.lookup key with
  | some f => some f
  | none => (fieldNames.find? (fun p => equalFold p.1 key)).map Prod.snd

/-- Decoding a JSON value into a Go `string`: a string is stored, `null` leaves the target
as it is, anything else is an `UnmarshalTypeError`. -/
def unmarshalString (v : JSON) (dst : String) : Except Err String :=
  match v with
  | JSON.str s => Except.ok s
  | JSON.null => Except.ok dst
  | _ => Except.error Err.jsonType

/-- Decoding a JSON value into a Go `float64`. -/
def unmarshalFloat64 (v : JSON) (dst : Float64) : Except Err Float64 :=
  match v with
  | JSON.num n =>
    match n.float64 with
    | some f => Except.ok (Float64.fin f)
    | none => Except.error Err.jsonType
  | JSON.null => Except.ok dst
  | _ => Except.error Err.jsonType

/-- Decoding a JSON value into a Go `int`. -/
def unmarshalInt (v : JSON) (dst : Int) : Except Err Int :=
  match v with
  | JSON.num n =>
    match n.int64 with
    | some i => Except.ok i
    | none => Except.error Err.jsonType
  | JSON.null => Except.ok dst
  | _ => Except.error Err.jsonType

/-- Decoding one object member into the field it matches. -/
def setField (it : PortfolioItem) (f : Field) (v : JSON) : Except Err PortfolioItem :=
  match f with
  | Field.id => (unmarshalInt v it.ID).map (fun x => { it with ID := x })
  | Field.title => (unmarshalString v it.Title).map (fun x => { it with Title := x })
  | Field.category => (unmarshalString v it.Category).map (fun x => { it with Category := x })
  | Field.prix => (unmarshalFloat64 v it.Prix).map (fun x => { it with Prix := x })
  | Field.img => (unmarshalString v it.Img).map (fun x => { it with Img := x })

/-- Decoding one member of an object: a key that matches no field is skipped. -/
def unmarshalMember (it : PortfolioItem) (kv : String × JSON) : Except Err PortfolioItem :=
  match findField kv.1 with
  | none => Except.ok it
  | some f => setField it f kv.2

/-- Decoding the members of an object into a struct, in the order they are written, so that
a later member overwrites what an earlier one stored in the same field. -/
def unmarshalMembers : List (String × JSON) → PortfolioItem → Except Err PortfolioItem
  | [], it => Except.ok it
  | kv :: rest, it =>
    match unmarshalMember it kv with
    | Except.error e => Except.error e
    | Except.ok it1 => unmarshalMembers rest it1

/-- Decoding an array element into a fresh `PortfolioItem`: an object is decoded member by
member, `null` leaves the zero value, any other value is an `UnmarshalTypeError`. -/
def unmarshalItem (v : JSON) : Except Err PortfolioItem :=
  match v with
  | JSON.obj members => unmarshalMembers members PortfolioItem.zero
  | JSON.null => Except.ok PortfolioItem.zero
  | _ => Except.error Err.jsonType

/-- Decoding the elements of an array. -/
def unmarshalElems : List JSON → Except Err (List PortfolioItem)
  | [] => Except.ok []
  | v :: rest =>
    match unmarshalItem v with
    | Except.error e => Except.error e
    | Except.ok it =>
      match unmarshalElems rest with
      | Except.error e => Except.error e
      | Except.ok its => Except.ok (it :: its)

/-- What `json.Unmarshal(data, &items)` with `items []PortfolioItem` does: `data = none` stands
for bytes that are not valid JSON. The value returned on an error is the first error met. -/
def unmarshalItems (data : Option JSON) : Except Err (List PortfolioItem) :=
  match data with
  | none => Except.error Err.jsonSyntax
  | some (JSON.arr elems) => unmarshalElems elems
  | some JSON.null => Except.ok []
  | some _ => Except.error Err.jsonType

/-- What `json.Marshal(raw)` writes for a `PortfolioItem`: `id` is left out when it is zero
(`omitempty`), every other field is always written. A price that is NaN or an infinity cannot
be encoded (`*json.UnsupportedValueError`). -/
def marshalItem (raw : PortfolioItem) : Except Err JSON :=
  match raw.Prix with
  | Float64.fin q =>
    Except.ok (JSON.obj
      ((if raw.ID = 0 then [] else [("id", JSON.num (marshalInt raw.ID))]) ++
       [("title", JSON.str raw.Title), ("category", JSON.str raw.Category),
        ("prix", JSON.num (marshalFloat64 q)), ("img", JSON.str raw.Img)]))
  | _ => Except.error Err.jsonUnsupported

/-- A Go `map[string]json.RawMessage`, as the list of its entries. -/
abbrev RawMap := List (String × JSON)

/-- Storing a member into a map replaces the entry with the same key. -/
def RawMap.set (m : RawMap) (k : String) (v : JSON) : RawMap :=
  (k, v) :: m.filter (fun p => p.1 != k)

/-- Looking up `m[k]` with its `ok` flag. -/
def RawMap.get (m : RawMap) (k : String) : Option JSON := m.lookup k

/-- What `json.Unmarshal(b, &m)` with `m map[string]json.RawMessage` leaves in `m` (`nil`, the
empty map, when `b` is not an object); its error is ignored by the caller. -/
def unmarshalRawMap (b : Except Err JSON) : RawMap :=
  match b with
  | Except.ok (JSON.obj members) => members.foldl (fun m kv => m.set kv.1 kv.2) []
  | _ => []

/-! ## The store: `database/sql` over SQLite, table `portfolio` -/

/-- A row of table `portfolio`. Column `prix` may hold `NULL` (a table created before the
column existed gets it from `ALTER TABLE ... ADD COLUMN prix REAL`, which fills in `NULL`). -/
structure Row where
  id : Int
  title : String
  category : String
  prix : Option Float64
  img : String
  deriving DecidableEq, Repr

/-- The database: the rows of `portfolio` and the table's entry in `sqlite_sequence`
(the largest rowid ever given out, kept because `id` is `AUTOINCREMENT`). -/
structure DB where
  rows : List Row
  seq : Int
  deriving DecidableEq, Repr

/-- The largest rowid SQLite can give out. -/
def maxRowid : Int := 9223372036854775807

/-- The largest `id` in the table, `none` when the table is empty. -/
def maxId : List Row → Option Int
  | [] => none
  | r :: rs =>
    match maxId rs with
    | none => some r.id
    | some m => some (max r.id m)

/-- The rowid SQLite picks for a new row of an `AUTOINCREMENT` table: one more than the
largest rowid in the table (1 for an empty table), and more than `sqlite_sequence`. -/
def DB.nextRowid (db : DB) : Int :=
  max (match maxId db.rows with
       | none => 1
       | some m => m + 1) (db.seq + 1)

/-- What SQLite stores for a `float64` bound to a parameter: NaN is stored as `NULL`, every
other value as it is. -/
def bindDouble (x : Float64) : Option Float64 :=
  match x with
  | Float64.nan => none
  | _ => some x

/-- The database after a row with the given values got the next rowid. -/
def DB.insertRow (db : DB) (title category : String) (prix : Float64) (img : String) : DB :=
  { rows := db.rows ++ [⟨db.nextRowid, title, category, bindDouble prix, img⟩],
    seq := db.nextRowid }

/-- Executing `INSERT INTO portfolio(title, category, prix, img) VALUES (?, ?, ?, ?)`.
`fault` is an error the engine reports for reasons outside the table (`none`: no such error);
the insert also fails, with `SQLITE_FULL`, once the rowids are used up. On success the result
is the new database and the rowid of the new row (`LastInsertId`). -/
def execInsert (fault : Option Err) (db : DB) (title category : String) (prix : Float64)
    (img : String) : Except Err (DB × Int) :=
  match fault with
  | some e => Except.error e
  | none =>
    if maxRowid < db.nextRowid then Except.error sqliteFull
    else Except.ok (db.insertRow title category prix img, db.nextRowid)

/-- Executing `ALTER TABLE portfolio ADD COLUMN prix REAL`: the error ("duplicate column
name") is ignored by both callers, and a column that was missing reads as `NULL`, which is
how rows without a price are represented already. -/
def execAddPrixColumn (db : DB) : DB := db

/-- The function `tableCount` of `db.go` for table `portfolio`: `SELECT COUNT(*)`. -/
def tableCount (fault : Option Err) (db : DB) : Except Err Nat :=
  match fault with
  | some e => Except.error e
  | none => Except.ok db.rows.length

/-! ## `LoadJSONToDB` -/

/-- The seed file at `jsonPath`, as `ioutil.ReadFile` and the JSON syntax check see it. -/
inductive SeedSource where
  /-- The file cannot be read. -/
  | unreadable (e : Err)
  /-- The file is read and its bytes are not a JSON text. -/
  | malformed
  /-- The file is read and its bytes are the JSON text of `j`. -/
  | document (j : JSON)

/-- The call `ioutil.ReadFile(jsonPath)`: the bytes, `none` for bytes that are no JSON text. -/
def readFile (src : SeedSource) : Except Err (Option JSON) :=
  match src with
  | SeedSource.unreadable e => Except.error e
  | SeedSource.malformed => Except.ok none
  | SeedSource.document j => Except.ok (some j)

/-- The price the loop body of `LoadJSONToDB` works out for one item (lines 91-108): `raw` is
marshalled again and read back as a map, and the first of the keys `prix`, `price`, `prx`
found in that map is decoded into `prixVal`, which starts at 0 and keeps its value when the
decoding fails. -/
def resolvePrix (raw : PortfolioItem) : Float64 :=
  let m := unmarshalRawMap (marshalItem raw)
  let prixVal : Float64 := 0
  match m.get "prix" with
  | some v => (unmarshalFloat64 v prixVal).toOption.getD prixVal
  | none =>
    match m.get "price" with
    | some v => (unmarshalFloat64 v prixVal).toOption.getD prixVal
    | none =>
      match m.get "prx" with
      | some v =>
        match unmarshalFloat64 v 0 with
        | Except.ok maybeNum => maybeNum
        | Except.error _ => prixVal
      | none => prixVal

/-- The outcomes of the engine calls of one `LoadJSONToDB` call. -/
structure LoadFaults where
  /-- The `SELECT COUNT(*)` of `tableCount`. -/
  count : Option Err
  /-- The call `db.Begin()`. -/
  begin : Option Err
  /-- The call `tx.Prepare(...)`. -/
  prepare : Option Err
  /-- The call `stmt.Exec(...)` for the item at each index. -/
  exec : Nat → Option Err
  /-- The call `tx.Commit()`. -/
  commit : Option Err

/-- The `for _, raw := range items` loop, run on the transaction's view `tx` of the
database from item index `k` on: the first failing `stmt.Exec` ends it with that error. -/
def insertLoop (exec : Nat → Option Err) : Nat → DB → List PortfolioItem → Except Err DB
  | _, tx, [] => Except.ok tx
  | k, tx, raw :: rest =>
    match execInsert (exec k) tx raw.Title raw.Category (resolvePrix raw) raw.Img with
    | Except.error e => Except.error e
    | Except.ok (tx1, _) => insertLoop exec (k + 1) tx1 rest

/-- The function `LoadJSONToDB` of `db.go`: the error it returns and the database it leaves.
The transaction works on a copy of the database; `tx.Rollback()` and a failed `tx.Commit()`
leave the database as it was at `db.Begin()`, a successful `tx.Commit()` installs the copy. -/
def LoadJSONToDB (F : LoadFaults) (db : DB) (src : SeedSource) : Option Err × DB :=
  match tableCount F.count db with
  | Except.error e => (some e, db)
  | Except.ok cnt =>
    if cnt > 0 then (none, db)
    else
      match readFile src with
      | Except.error e => (some e, db)
      | Except.ok data =>
        match unmarshalItems data with
        | Except.error e => (some e, db)
        | Except.ok items =>
          match F.begin with
          | some e => (some e, db)
          | none =>
            let tx := execAddPrixColumn db
            match F.prepare with
            | some e => (some e, db)
            | none =>
              match insertLoop F.exec 0 tx items with
              | Except.error e => (some e, db)
              | Except.ok tx1 =>
                match F.commit with
                | some e => (some e, db)
                | none => (none, tx1)

/-- An engine that reports no error of its own during `LoadJSONToDB`. -/
def LoadFaults.healthy : LoadFaults :=
  { count := none, begin := none, prepare := none, exec := fun _ => none, commit := none }

/-! ## `GetAllPortfolio` and `InsertPortfolio` -/

/-- The outcomes of the engine calls of one `GetAllPortfolio` call. -/
structure QueryFaults where
  /-- The call `db.Query(...)`. -/
  query : Option Err
  /-- An error that ends the iteration before the row at that index is fetched
  (`rows.Next()` is false and `rows.Err()` returns the error). -/
  next : Nat → Option Err
  /-- The call `rows.Scan(...)` for the row at each index. -/
  scan : Nat → Option Err

/-- An engine that reports no error during `GetAllPortfolio`. -/
def QueryFaults.healthy : QueryFaults :=
  { query := none, next := fun _ => none, scan := fun _ => none }

/-- The result set of `SELECT id, title, category, prix, img FROM portfolio ORDER BY id ASC`. -/
def selectAll (db : DB) : List Row :=
  db.rows.insertionSort (fun a b => a.id ≤ b.id)

/-- The item the loop body of `GetAllPortfolio` builds from a scanned row: a `NULL` price
reads as 0. -/
def scanItem (r : Row) : PortfolioItem :=
  { ID := r.id, Title := r.title, Category := r.category,
    Prix := match r.prix with
            | some p => p
            | none => 0,
    Img := r.img }

/-- The `for rows.Next()` loop of `GetAllPortfolio` from row index `k` on, with the slice
`out` built so far: a failing `Scan` returns `nil` and the error, the end of the rows returns
`out` and `rows.Err()`. -/
def scanRows (F : QueryFaults) : Nat → List Row → List PortfolioItem →
    List PortfolioItem × Option Err
  | k, [], out => (out, F.next k)
  | k, r :: rest, out =>
    match F.next k with
    | some e => (out, some e)
    | none =>
      match F.scan k with
      | some e => ([], some e)
      | none => scanRows F (k + 1) rest (out ++ [scanItem r])

/-- The function `GetAllPortfolio` of `db.go`: the slice and the error it returns. It leaves
the database as it is. -/
def GetAllPortfolio (F : QueryFaults) (db : DB) : List PortfolioItem × Option Err :=
  let db1 := execAddPrixColumn db
  match F.query with
  | some e => ([], some e)
  | none => scanRows F 0 (selectAll db1) []

/-- The outcomes of the engine calls of one `InsertPortfolio` call. -/
structure InsertFaults where
  /-- The call `db.Exec(...)`. -/
  exec : Option Err
  /-- The call `res.LastInsertId()`. -/
  lastInsertId : Option Err

/-- An engine that reports no error of its own during `InsertPortfolio`. -/
def InsertFaults.healthy : InsertFaults := { exec := none, lastInsertId := none }

/-- The function `InsertPortfolio` of `db.go`: the error it returns, the database it leaves
and the item `it` points to afterwards. -/
def InsertPortfolio (F : InsertFaults) (db : DB) (it : PortfolioItem) :
    Option Err × DB × PortfolioItem :=
  match execInsert F.exec db it.Title it.Category it.Prix it.Img with
  | Except.error e => (some e, db, it)
  | Except.ok (db1, id) =>
    match F.lastInsertId with
    | some e => (some e, db1, it)
    | none => (none, db1, { it with ID := id })

/-! ## The `/api/portfolio` handler of `main.go` -/

/-- The uploaded file of a multipart form: its `multipart.FileHeader` and its bytes. -/
structure FileHeader where
  Filename : String
  content : String
  deriving DecidableEq, Repr

/-- An HTTP request, as the handler reads it. -/
structure Request where
  Method : String
  /-- The error of `r.ParseMultipartForm(10 << 20)`. -/
  parseMultipartForm : Option Err
  /-- The call `r.FormValue(key)`: the first value of the field, `""` when there is none. -/
  FormValue : String → String
  /-- The call `r.FormFile("img")`: `none` when the form has no file under `img`. -/
  img : Option FileHeader

/-- The body written to the `http.ResponseWriter`. -/
inductive Body where
  /-- The message of an `http.Error` call. -/
  | text (msg : String)
  /-- The text `err.Error()` of an error. -/
  | error (e : Err)
  /-- What `json.NewEncoder(w).Encode(it)` writes for the item `it`. -/
  | item (it : PortfolioItem)
  /-- What `json.NewEncoder(w).Encode(its)` writes for the slice `its`. -/
  | items (its : List PortfolioItem)
  deriving DecidableEq, Repr

/-- The response: status code and body. -/
structure Response where
  status : Nat
  body : Body
  deriving DecidableEq, Repr

/-- What the handler works on: the database and the files on disk, by path. -/
structure Server where
  db : DB
  files : List (String × String)
  deriving DecidableEq, Repr

/-- What the handler's surroundings decide for one request. -/
structure HandlerEnv where
  /-- The call `fmt.Sscanf(prixStr, "%f", &prix)`: the number scanned (`NaN` and `Inf` are
  accepted), `none` when the text does not start with one (and `prix` keeps its zero value). -/
  sscanf : String → Option Float64
  /-- The call `os.Create(...)`. -/
  create : Option Err
  /-- The call `io.Copy(dst, file)`, whose result is ignored: `some n` when only the first
  `n` characters reach the file. -/
  copy : Option Nat
  insert : InsertFaults
  query : QueryFaults

/-- The call `os.Create(path)`: the file is created, or truncated when it exists. -/
def osCreate (fault : Option Err) (files : List (String × String)) (path : String) :
    Except Err (List (String × String)) :=
  match fault with
  | some e => Except.error e
  | none => Except.ok ((path, "") :: files.filter (fun f => f.1 != path))

/-- The call `io.Copy(dst, file)` on the file just created at `path`. -/
def ioCopy (copy : Option Nat) (files : List (String × String)) (path content : String) :
    List (String × String) :=
  let written := match copy with
                 | none => content
                 | some n => content.take n
  files.map (fun f => if f.1 = path then (f.1, written) else f)

/-- The handler registered for `/api/portfolio` in `main`: the response and the state of the
server after the request. -/
def portfolioHandler (E : HandlerEnv) (s : Server) (r : Request) : Response × Server :=
  if r.Method = "GET" then
    match GetAllPortfolio E.query s.db with
    | (_, some _) => (⟨500, Body.text "failed to query portfolio"⟩, s)
    | (items, none) => (⟨200, Body.items items⟩, s)
  else if r.Method = "POST" then
    match r.parseMultipartForm with
    | some e => (⟨400, Body.error e⟩, s)
    | none =>
      let title := r.FormValue "title"
      let category := r.FormValue "category"
      let prixStr := r.FormValue "prix"
      let prix : Float64 := (E.sscanf prixStr).getD 0
      match r.img with
      | none => (⟨400, Body.text "Error retrieving the file"⟩, s)
      | some handler =>
        match osCreate E.create s.files ("../assets/img/portfolio/" ++ handler.Filename) with
        | Except.error _ => (⟨500, Body.text "Error saving file"⟩, s)
        | Except.ok files1 =>
          let files2 := ioCopy E.copy files1 ("../assets/img/portfolio/" ++ handler.Filename)
            handler.content
          let item : PortfolioItem :=
            { ID := 1, Title := title, Category := category, Prix := prix,
              Img := "/assets/img/portfolio/" ++ handler.Filename }
          if item.Title = "" ∨ item.Img = "" then
            (⟨400, Body.text "missing title or img"⟩, { s with files := files2 })
          else
            match InsertPortfolio E.insert s.db item with
            | (some _, db1, _) =>
              (⟨500, Body.text "failed to insert item"⟩, { db := db1, files := files2 })
            | (none, db1, item1) => (⟨201, Body.item item1⟩, { db := db1, files := files2 })
  else (⟨405, Body.text "method not allowed"⟩, s)

/-! ## Runs of calls -/

/-- The rows that a run of successful inserts of `items` adds to the table when the first of
them gets rowid `first`. -/
def importedRows (first : Int) : List PortfolioItem → List Row
  | [] => []
  | it :: rest =>
    ⟨first, it.Title, it.Category, bindDouble (resolvePrix it), it.Img⟩ ::
      importedRows (first + 1) rest

/-- The price `GetAllPortfolio` lists for a row that was inserted with the price `x`: NaN is
stored as `NULL`, which is listed as 0. -/
def readBack (x : Float64) : Float64 :=
  match bindDouble x with
  | some p => p
  | none => 0

/-- Successive `InsertPortfolio` calls, one per item, each on the database the call before
left, call `k` with the engine outcomes `F k`: the final database and the items as the calls
left them, or the error of the first call that fails. -/
def insertSeq (F : Nat → InsertFaults) : Nat → DB → List PortfolioItem →
    Except Err (DB × List PortfolioItem)
  | _, db, [] => Except.ok (db, [])
  | k, db, it :: rest =>
    match InsertPortfolio (F k) db it with
    | (some e, _, _) => Except.error e
    | (none, db1, it1) =>
      match insertSeq F (k + 1) db1 rest with
      | Except.error e => Except.error e
      | Except.ok (db2, out) => Except.ok (db2, it1 :: out)

/-! ## Lemmas on the JSON decoding -/

/-- The price worked out by the loop body is the `Prix` field of the item when that is
finite: the item is marshalled with a `prix` member whatever its value, so the map always has
the key `prix` and the branches for `price` and `prx` are never taken. -/
theorem resolvePrix_eq (raw : PortfolioItem) (q : ℚ) (hq : raw.Prix = Float64.fin q) :
    resolvePrix raw = raw.Prix := by
  unfold resolvePrix marshalItem unmarshalRawMap
  rw [hq]
  by_cases h : raw.ID = 0
  · simp [h, RawMap.set, RawMap.get, List.lookup, unmarshalFloat64, marshalFloat64,
      Except.toOption]
  · simp [h, RawMap.set, RawMap.get, List.lookup, unmarshalFloat64, marshalFloat64,
      Except.toOption]

/-- Decoding the members `a ++ b` is decoding `a` and then `b`. -/
theorem unmarshalMembers_append (a b : List (String × JSON)) (it : PortfolioItem) :
    unmarshalMembers (a ++ b) it =
      match unmarshalMembers a it with
      | Except.error e => Except.error e
      | Except.ok it1 => unmarshalMembers b it1 := by
  induction a generalizing it with
  | nil => rfl
  | cons kv rest ih =>
    simp only [List.cons_append, unmarshalMembers]
    cases unmarshalMember it kv with
    | error e => rfl
    | ok it1 => exact ih it1

/-- Members none of whose keys is decoded into the field `f` leave every reading `proj` of
the item that only the field `f` can change as it is. -/
theorem unmarshalMembers_keep {α : Type} (proj : PortfolioItem → α) (f : Field)
    (hproj : ∀ (it it1 : PortfolioItem) (g : Field) (v : JSON), g ≠ f →
      setField it g v = Except.ok it1 → proj it1 = proj it)
    (post : List (String × JSON)) (it it1 : PortfolioItem)
    (hkeys : ∀ kv ∈ post, findField kv.1 ≠ some f)
    (h : unmarshalMembers post it = Except.ok it1) : proj it1 = proj it := by
  induction post generalizing it with
  | nil =>
    simp only [unmarshalMembers] at h
    cases h
    rfl
  | cons kv rest ih =>
    simp only [unmarshalMembers] at h
    cases hm : unmarshalMember it kv with
    | error e => rw [hm] at h; cases h
    | ok it2 =>
      rw [hm] at h
      have h1 := ih it2 (fun x hx => hkeys x (List.mem_cons_of_mem _ hx)) h
      have hk := hkeys kv (List.mem_cons_self _ _)
      have h2 : proj it2 = proj it := by
        unfold unmarshalMember at hm
        cases hf : findField kv.1 with
        | none =>
          rw [hf] at hm
          cases hm
          rfl
        | some g =>
          rw [hf] at hm hk
          exact hproj it it2 g kv.2 (fun hg => hk (by rw [hg])) hm
      rw [h1, h2]

/-- Only a member decoded into `prix` changes the `Prix` field. -/
theorem setField_Prix (it it1 : PortfolioItem) (g : Field) (v : JSON) (hg : g ≠ Field.prix)
    (h : setField it g v = Except.ok it1) : it1.Prix = it.Prix := by
  cases g with
  | prix => exact absurd rfl hg
  | id =>
    simp only [setField] at h
    cases hu : unmarshalInt v it.ID with
    | error e => rw [hu] at h; cases h
    | ok x => rw [hu] at h; cases h; rfl
  | title =>
    simp only [setField] at h
    cases hu : unmarshalString v it.Title with
    | error e => rw [hu] at h; cases h
    | ok x => rw [hu] at h; cases h; rfl
  | category =>
    simp only [setField] at h
    cases hu : unmarshalString v it.Category with
    | error e => rw [hu] at h; cases h
    | ok x => rw [hu] at h; cases h; rfl
  | img =>
    simp only [setField] at h
    cases hu : unmarshalString v it.Img with
    | error e => rw [hu] at h; cases h
    | ok x => rw [hu] at h; cases h; rfl

/-- Only a member decoded into `title` changes the `Title` field. -/
theorem setField_Title (it it1 : PortfolioItem) (g : Field) (v : JSON) (hg : g ≠ Field.title)
    (h : setField it g v = Except.ok it1) : it1.Title = it.Title := by
  cases g with
  | title => exact absurd rfl hg
  | id =>
    simp only [setField] at h
    cases hu : unmarshalInt v it.ID with
    | error e => rw [hu] at h; cases h
    | ok x => rw [hu] at h; cases h; rfl
  | prix =>
    simp only [setField] at h
    cases hu : unmarshalFloat64 v it.Prix with
    | error e => rw [hu] at h; cases h
    | ok x => rw [hu] at h; cases h; rfl
  | category =>
    simp only [setField] at h
    cases hu : unmarshalString v it.Category with
    | error e => rw [hu] at h; cases h
    | ok x => rw [hu] at h; cases h; rfl
  | img =>
    simp only [setField] at h
    cases hu : unmarshalString v it.Img with
    | error e => rw [hu] at h; cases h
    | ok x => rw [hu] at h; cases h; rfl

/-- Only a member decoded into `category` changes the `Category` field. -/
theorem setField_Category (it it1 : PortfolioItem) (g : Field) (v : JSON)
    (hg : g ≠ Field.category) (h : setField it g v = Except.ok it1) :
    it1.Category = it.Category := by
  cases g with
  | category => exact absurd rfl hg
  | id =>
    simp only [setField] at h
    cases hu : unmarshalInt v it.ID with
    | error e => rw [hu] at h; cases h
    | ok x => rw [hu] at h; cases h; rfl
  | prix =>
    simp only [setField] at h
    cases hu : unmarshalFloat64 v it.Prix with
    | error e => rw [hu] at h; cases h
    | ok x => rw [hu] at h; cases h; rfl
  | title =>
    simp only [setField] at h
    cases hu : unmarshalString v it.Title with
    | error e => rw [hu] at h; cases h
    | ok x => rw [hu] at h; cases h; rfl
  | img =>
    simp only [setField] at h
    cases hu : unmarshalString v it.Img with
    | error e => rw [hu] at h; cases h
    | ok x => rw [hu] at h; cases h; rfl

/-- Only a member decoded into `img` changes the `Img` field. -/
theorem setField_Img (it it1 : PortfolioItem) (g : Field) (v : JSON) (hg : g ≠ Field.img)
    (h : setField it g v = Except.ok it1) : it1.Img = it.Img := by
  cases g with
  | img => exact absurd rfl hg
  | id =>
    simp only [setField] at h
    cases hu : unmarshalInt v it.ID with
    | error e => rw [hu] at h; cases h
    | ok x => rw [hu] at h; cases h; rfl
  | prix =>
    simp only [setField] at h
    cases hu : unmarshalFloat64 v it.Prix with
    | error e => rw [hu] at h; cases h
    | ok x => rw [hu] at h; cases h; rfl
  | title =>
    simp only [setField] at h
    cases hu : unmarshalString v it.Title with
    | error e => rw [hu] at h; cases h
    | ok x => rw [hu] at h; cases h; rfl
  | category =>
    simp only [setField] at h
    cases hu : unmarshalString v it.Category with
    | error e => rw [hu] at h; cases h
    | ok x => rw [hu] at h; cases h; rfl

/-- Decoding a member keeps the price finite. -/
theorem setField_finite (it it1 : PortfolioItem) (g : Field) (v : JSON)
    (hfin : ∃ q, it.Prix = Float64.fin q) (h : setField it g v = Except.ok it1) :
    ∃ q, it1.Prix = Float64.fin q := by
  by_cases hg : g = Field.prix
  · subst hg
    simp only [setField] at h
    cases hu : unmarshalFloat64 v it.Prix with
    | error e => rw [hu] at h; cases h
    | ok x =>
      rw [hu] at h
      cases h
      show ∃ q, x = Float64.fin q
      unfold unmarshalFloat64 at hu
      cases v with
      | num n =>
        cases hn : n.float64 with
        | none => simp [hn] at hu
        | some f =>
          simp only [hn, Except.ok.injEq] at hu
          exact ⟨f, hu.symm⟩
      | null =>
        simp only [Except.ok.injEq] at hu
        rw [← hu]
        exact hfin
      | bool b => simp at hu
      | str s => simp at hu
      | arr l => simp at hu
      | obj l => simp at hu
  · rw [setField_Prix it it1 g v hg h]
    exact hfin

/-- The price of a decoded item is finite. -/
theorem unmarshalMembers_finite (members : List (String × JSON)) (it it1 : PortfolioItem)
    (hfin : ∃ q, it.Prix = Float64.fin q)
    (h : unmarshalMembers members it = Except.ok it1) : ∃ q, it1.Prix = Float64.fin q := by
  induction members generalizing it with
  | nil =>
    simp only [unmarshalMembers] at h
    cases h
    exact hfin
  | cons kv rest ih =>
    simp only [unmarshalMembers] at h
    cases hm : unmarshalMember it kv with
    | error e => rw [hm] at h; cases h
    | ok it2 =>
      rw [hm] at h
      refine ih it2 ?_ h
      unfold unmarshalMember at hm
      cases hf : findField kv.1 with
      | none =>
        rw [hf] at hm
        cases hm
        exact hfin
      | some g =>
        rw [hf] at hm
        exact setField_finite it it2 g kv.2 hfin hm

theorem unmarshalItem_finite (e : JSON) (it : PortfolioItem)
    (h : unmarshalItem e = Except.ok it) : ∃ q, it.Prix = Float64.fin q := by
  have hzero : ∃ q, PortfolioItem.zero.Prix = Float64.fin q := ⟨((0 : Nat) : ℚ), rfl⟩
  unfold unmarshalItem at h
  cases e with
  | obj members => exact unmarshalMembers_finite members _ it hzero h
  | null =>
    simp only [Except.ok.injEq] at h
    rw [← h]
    exact hzero
  | bool b => simp at h
  | num n => simp at h
  | str s => simp at h
  | arr l => simp at h

/-- The price stored for a decoded item is its `Prix` field. -/
theorem bindDouble_resolvePrix (e : JSON) (it : PortfolioItem)
    (h : unmarshalItem e = Except.ok it) : bindDouble (resolvePrix it) = some it.Prix := by
  obtain ⟨q, hq⟩ := unmarshalItem_finite e it h
  rw [resolvePrix_eq it q hq, hq]
  rfl

/-- A key that is decoded into a field equals that field's name up to letter case. -/
theorem findField_name (key : String) (f : Field) (h : findField key = some f) :
    ∃ name, (name, f) ∈ fieldNames ∧ equalFold name key = true := by
  by_cases h1 : key = "id"
  · subst h1
    have e : findField "id" = some Field.id := by decide
    rw [e] at h
    cases h
    exact ⟨"id", by decide, by decide⟩
  by_cases h2 : key = "title"
  · subst h2
    have e : findField "title" = some Field.title := by decide
    rw [e] at h
    cases h
    exact ⟨"title", by decide, by decide⟩
  by_cases h3 : key = "category"
  · subst h3
    have e : findField "category" = some Field.category := by decide
    rw [e] at h
    cases h
    exact ⟨"category", by decide, by decide⟩
  by_cases h4 : key = "prix"
  · subst h4
    have e : findField "prix" = some Field.prix := by decide
    rw [e] at h
    cases h
    exact ⟨"prix", by decide, by decide⟩
  by_cases h5 : key = "img"
  · subst h5
    have e : findField "img" = some Field.img := by decide
    rw [e] at h
    cases h
    exact ⟨"img", by decide, by decide⟩
  unfold findField at h
  have hl : fieldNames.lookup key = none := by
    have b1 : (key == "id") = false := by simpa using h1
    have b2 : (key == "title") = false := by simpa using h2
    have b3 : (key == "category") = false := by simpa using h3
    have b4 : (key == "prix") = false := by simpa using h4
    have b5 : (key == "img") = false := by simpa using h5
    simp only [fieldNames, List.lookup, b1, b2, b3, b4, b5]
  rw [hl] at h
  simp only [fieldNames, List.find?] at h
  by_cases e1 : equalFold "id" key = true
  · simp only [e1, Option.map_some', Option.some.injEq] at h
    subst h
    exact ⟨"id", by decide, e1⟩
  by_cases e2 : equalFold "title" key = true
  · simp only [e1, e2, Option.map_some', Option.some.injEq] at h
    subst h
    exact ⟨"title", by decide, e2⟩
  by_cases e3 : equalFold "category" key = true
  · simp only [e1, e2, e3, Option.map_some', Option.some.injEq] at h
    subst h
    exact ⟨"category", by decide, e3⟩
  by_cases e4 : equalFold "prix" key = true
  · simp only [e1, e2, e3, e4, Option.map_some', Option.some.injEq] at h
    subst h
    exact ⟨"prix", by decide, e4⟩
  by_cases e5 : equalFold "img" key = true
  · simp only [e1, e2, e3, e4, e5, Option.map_some', Option.some.injEq] at h
    subst h
    exact ⟨"img", by decide, e5⟩
  simp [e1, e2, e3, e4, e5] at h

/-- A key that is decoded into the field `prix` equals `prix` up to letter case. -/
theorem equalFold_of_findField (key : String) (h : findField key = some Field.prix) :
    equalFold "prix" key = true := by
  obtain ⟨name, hmem, he⟩ := findField_name key Field.prix h
  simp [fieldNames] at hmem
  subst hmem
  exact he

theorem equalFold_title (key : String) (h : findField key = some Field.title) :
    equalFold "title" key = true := by
  obtain ⟨name, hmem, he⟩ := findField_name key Field.title h
  simp [fieldNames] at hmem
  subst hmem
  exact he

theorem equalFold_category (key : String) (h : findField key = some Field.category) :
    equalFold "category" key = true := by
  obtain ⟨name, hmem, he⟩ := findField_name key Field.category h
  simp [fieldNames] at hmem
  subst hmem
  exact he

theorem equalFold_img (key : String) (h : findField key = some Field.img) :
    equalFold "img" key = true := by
  obtain ⟨name, hmem, he⟩ := findField_name key Field.img h
  simp [fieldNames] at hmem
  subst hmem
  exact he

/-- An object whose last member matching `prix` is the number `p` under the key `prix` itself
decodes to an item with `Prix = p`. -/
theorem unmarshalItem_prix (pre post : List (String × JSON)) (n : NumLit) (p : ℚ)
    (it : PortfolioItem) (hp : n.float64 = some p)
    (hpost : ∀ kv ∈ post, equalFold "prix" kv.1 = false)
    (h : unmarshalItem (JSON.obj (pre ++ ("prix", JSON.num n) :: post)) = Except.ok it) :
    it.Prix = Float64.fin p := by
  simp only [unmarshalItem] at h
  rw [unmarshalMembers_append] at h
  cases hpre : unmarshalMembers pre PortfolioItem.zero with
  | error e => rw [hpre] at h; cases h
  | ok it1 =>
    rw [hpre] at h
    simp only [unmarshalMembers] at h
    have hm : unmarshalMember it1 ("prix", JSON.num n) =
        Except.ok { it1 with Prix := Float64.fin p } := by
      have hf : findField "prix" = some Field.prix := by decide
      simp only [unmarshalMember, hf, setField, unmarshalFloat64, hp]
      rfl
    rw [hm] at h
    exact unmarshalMembers_keep PortfolioItem.Prix Field.prix setField_Prix post _ it
      (fun kv hkv hf => by
        have := equalFold_of_findField kv.1 hf
        rw [hpost kv hkv] at this
        cases this) h

/-- An object whose last member matching `title` is the string `s` under the key `title`
itself decodes to an item with `Title = s`. -/
theorem unmarshalItem_title (pre post : List (String × JSON)) (s : String)
    (it : PortfolioItem) (hpost : ∀ kv ∈ post, equalFold "title" kv.1 = false)
    (h : unmarshalItem (JSON.obj (pre ++ ("title", JSON.str s) :: post)) = Except.ok it) :
    it.Title = s := by
  simp only [unmarshalItem] at h
  rw [unmarshalMembers_append] at h
  cases hpre : unmarshalMembers pre PortfolioItem.zero with
  | error e => rw [hpre] at h; cases h
  | ok it1 =>
    rw [hpre] at h
    simp only [unmarshalMembers] at h
    have hm : unmarshalMember it1 ("title", JSON.str s) =
        Except.ok { it1 with Title := s } := by
      have hf : findField "title" = some Field.title := by decide
      simp only [unmarshalMember, hf, setField, unmarshalString]
      rfl
    rw [hm] at h
    exact unmarshalMembers_keep PortfolioItem.Title Field.title setField_Title post _ it
      (fun kv hkv hf => by
        have := equalFold_title kv.1 hf
        rw [hpost kv hkv] at this
        cases this) h

/-- An object whose last member matching `category` is the string `s` under the key
`category` itself decodes to an item with `Category = s`. -/
theorem unmarshalItem_category (pre post : List (String × JSON)) (s : String)
    (it : PortfolioItem) (hpost : ∀ kv ∈ post, equalFold "category" kv.1 = false)
    (h : unmarshalItem (JSON.obj (pre ++ ("category", JSON.str s) :: post)) = Except.ok it) :
    it.Category = s := by
  simp only [unmarshalItem] at h
  rw [unmarshalMembers_append] at h
  cases hpre : unmarshalMembers pre PortfolioItem.zero with
  | error e => rw [hpre] at h; cases h
  | ok it1 =>
    rw [hpre] at h
    simp only [unmarshalMembers] at h
    have hm : unmarshalMember it1 ("category", JSON.str s) =
        Except.ok { it1 with Category := s } := by
      have hf : findField "category" = some Field.category := by decide
      simp only [unmarshalMember, hf, setField, unmarshalString]
      rfl
    rw [hm] at h
    exact unmarshalMembers_keep PortfolioItem.Category Field.category setField_Category post _ it
      (fun kv hkv hf => by
        have := equalFold_category kv.1 hf
        rw [hpost kv hkv] at this
        cases this) h

/-- An object whose last member matching `img` is the string `s` under the key `img` itself
decodes to an item with `Img = s`. -/
theorem unmarshalItem_img (pre post : List (String × JSON)) (s : String)
    (it : PortfolioItem) (hpost : ∀ kv ∈ post, equalFold "img" kv.1 = false)
    (h : unmarshalItem (JSON.obj (pre ++ ("img", JSON.str s) :: post)) = Except.ok it) :
    it.Img = s := by
  simp only [unmarshalItem] at h
  rw [unmarshalMembers_append] at h
  cases hpre : unmarshalMembers pre PortfolioItem.zero with
  | error e => rw [hpre] at h; cases h
  | ok it1 =>
    rw [hpre] at h
    simp only [unmarshalMembers] at h
    have hm : unmarshalMember it1 ("img", JSON.str s) =
        Except.ok { it1 with Img := s } := by
      have hf : findField "img" = some Field.img := by decide
      simp only [unmarshalMember, hf, setField, unmarshalString]
      rfl
    rw [hm] at h
    exact unmarshalMembers_keep PortfolioItem.Img Field.img setField_Img post _ it
      (fun kv hkv hf => by
        have := equalFold_img kv.1 hf
        rw [hpost kv hkv] at this
        cases this) h

/-- The decoded items are the decodings of the array's elements, in order. -/
theorem unmarshalElems_getElem (elems : List JSON) (items : List PortfolioItem)
    (h : unmarshalElems elems = Except.ok items) :
    items.length = elems.length ∧
      ∀ (k : Nat) (e : JSON), elems[k]? = some e →
        ∃ it, items[k]? = some it ∧ unmarshalItem e = Except.ok it := by
  induction elems generalizing items with
  | nil =>
    simp only [unmarshalElems] at h
    cases h
    simp
  | cons v rest ih =>
    simp only [unmarshalElems] at h
    cases hv : unmarshalItem v with
    | error e => rw [hv] at h; cases h
    | ok it =>
      rw [hv] at h
      cases hr : unmarshalElems rest with
      | error e => rw [hr] at h; cases h
      | ok its =>
        rw [hr] at h
        cases h
        obtain ⟨hlen, hget⟩ := ih its hr
        refine ⟨by simp [hlen], ?_⟩
        intro k e hk
        cases k with
        | zero =>
          simp only [List.getElem?_cons_zero, Option.some.injEq] at hk
          subst hk
          exact ⟨it, by simp, hv⟩
        | succ k =>
          simp only [List.getElem?_cons_succ] at hk
          obtain ⟨it1, h1, h2⟩ := hget k e hk
          exact ⟨it1, by simpa using h1, h2⟩

/-! ## Lemmas on the store -/

theorem maxId_append_singleton (rs : List Row) (r : Row) :
    maxId (rs ++ [r]) = some (match maxId rs with
                              | none => r.id
                              | some m => max m r.id) := by
  induction rs with
  | nil => rfl
  | cons x rs ih =>
    have hstep : maxId (x :: (rs ++ [r])) = match maxId (rs ++ [r]) with
                                            | none => some x.id
                                            | some m => some (max x.id m) := rfl
    rw [List.cons_append, hstep, ih]
    simp only [maxId]
    cases maxId rs with
    | none => simp only [max_comm]
    | some m => simp only [max_assoc]

theorem le_maxId (rs : List Row) (r : Row) (hr : r ∈ rs) :
    ∃ m, maxId rs = some m ∧ r.id ≤ m := by
  induction rs with
  | nil => cases hr
  | cons x rs ih =>
    simp only [maxId]
    rcases List.mem_cons.mp hr with h | h
    · subst h
      cases maxId rs with
      | none => exact ⟨r.id, rfl, le_refl _⟩
      | some m => exact ⟨max r.id m, rfl, le_max_left _ _⟩
    · obtain ⟨m, hm, hle⟩ := ih h
      rw [hm]
      exact ⟨max x.id m, rfl, le_trans hle (le_max_right _ _)⟩

/-- The next rowid is larger than every rowid in the table. -/
theorem id_lt_nextRowid (db : DB) (r : Row) (hr : r ∈ db.rows) : r.id < db.nextRowid := by
  obtain ⟨m, hm, hle⟩ := le_maxId db.rows r hr
  simp only [DB.nextRowid, hm]
  have := le_max_left (m + 1) (db.seq + 1)
  omega

/-- The next rowid is larger than the table's `sqlite_sequence` entry and positive on an empty
table. -/
theorem seq_lt_nextRowid (db : DB) : db.seq < db.nextRowid := by
  simp only [DB.nextRowid]
  have := le_max_right (match maxId db.rows with
                        | none => 1
                        | some m => m + 1) (db.seq + 1)
  omega

theorem nextRowid_pos_of_empty (db : DB) (h : db.rows = []) : 1 ≤ db.nextRowid := by
  simp only [DB.nextRowid, h, maxId]
  exact le_max_left _ _

/-- After an insert the next rowid is one more. -/
theorem nextRowid_insertRow (db : DB) (t c : String) (p : Float64) (i : String) :
    (db.insertRow t c p i).nextRowid = db.nextRowid + 1 := by
  have hseq := seq_lt_nextRowid db
  simp only [DB.insertRow]
  rw [DB.nextRowid]
  simp only [maxId_append_singleton]
  cases hm : maxId db.rows with
  | none => simp
  | some m =>
    have hlt : m < db.nextRowid := by
      have h1 : db.nextRowid = max (m + 1) (db.seq + 1) := by simp only [DB.nextRowid, hm]
      have := le_max_left (m + 1) (db.seq + 1)
      omega
    simp only [max_eq_right (le_of_lt hlt), max_self]

theorem execInsert_ok (db : DB) (t c : String) (p : Float64) (i : String)
    (hroom : db.nextRowid ≤ maxRowid) :
    execInsert none db t c p i = Except.ok (db.insertRow t c p i, db.nextRowid) := by
  simp only [execInsert, not_lt.mpr hroom, if_false]

theorem execInsert_full (db : DB) (t c : String) (p : Float64) (i : String)
    (hfull : maxRowid < db.nextRowid) :
    execInsert none db t c p i = Except.error sqliteFull := by
  simp only [execInsert, hfull, if_true]

/-- A successful insert is the insert of a row with the next rowid. -/
theorem execInsert_eq_ok (f : Option Err) (db db1 : DB) (t c : String) (p : Float64)
    (i : String) (id : Int) (h : execInsert f db t c p i = Except.ok (db1, id)) :
    f = none ∧ db.nextRowid ≤ maxRowid ∧ db1 = db.insertRow t c p i ∧ id = db.nextRowid := by
  unfold execInsert at h
  cases f with
  | some e => cases h
  | none =>
    by_cases hfull : maxRowid < db.nextRowid
    · simp only [hfull, if_true] at h
      cases h
    · simp only [hfull, if_false] at h
      cases h
      exact ⟨rfl, not_lt.mp hfull, rfl, rfl⟩

/-! ## Lemmas on the import loop -/

theorem importedRows_length (first : Int) (items : List PortfolioItem) :
    (importedRows first items).length = items.length := by
  induction items generalizing first with
  | nil => rfl
  | cons it rest ih => simp [importedRows, ih]

theorem importedRows_getElem (first : Int) (items : List PortfolioItem) (k : Nat)
    (it : PortfolioItem) (h : items[k]? = some it) :
    (importedRows first items)[k]? =
      some ⟨first + k, it.Title, it.Category, bindDouble (resolvePrix it), it.Img⟩ := by
  induction items generalizing first k with
  | nil => simp at h
  | cons x rest ih =>
    cases k with
    | zero =>
      simp only [List.getElem?_cons_zero, Option.some.injEq] at h
      subst h
      simp [importedRows]
    | succ k =>
      simp only [List.getElem?_cons_succ] at h
      simp only [importedRows, List.getElem?_cons_succ, ih (first + 1) k h]
      simp only [Nat.cast_add, Nat.cast_one, Option.some.injEq, Row.mk.injEq, and_true,
        true_and]
      omega

theorem importedRows_ids (first : Int) (items : List PortfolioItem) :
    (∀ r ∈ importedRows first items, first ≤ r.id) ∧
      List.Pairwise (fun a b : Row => a.id < b.id) (importedRows first items) := by
  induction items generalizing first with
  | nil => simp [importedRows]
  | cons x rest ih =>
    obtain ⟨hge, hpw⟩ := ih (first + 1)
    constructor
    · intro r hr
      simp only [importedRows, List.mem_cons] at hr
      rcases hr with h | h
      · subst h
        exact le_refl _
      · have := hge r h
        omega
    · simp only [importedRows, List.pairwise_cons]
      refine ⟨?_, hpw⟩
      intro r hr
      have := hge r hr
      show first < r.id
      omega

/-- When the engine reports no error for the items and the rowids suffice, the loop inserts
every item, in order. -/
theorem insertLoop_ok (exec : Nat → Option Err) (items : List PortfolioItem) (k : Nat) (tx : DB)
    (hexec : ∀ j, j < items.length → exec (k + j) = none)
    (hroom : tx.nextRowid + items.length ≤ maxRowid + 1) :
    ∃ tx1, insertLoop exec k tx items = Except.ok tx1 ∧
      tx1.rows = tx.rows ++ importedRows tx.nextRowid items ∧
      tx1.nextRowid = tx.nextRowid + items.length := by
  induction items generalizing k tx with
  | nil => exact ⟨tx, rfl, by simp [importedRows], by simp⟩
  | cons x rest ih =>
    have h0 : exec k = none := by simpa using hexec 0 (by simp)
    have hlen : ((x :: rest).length : Int) = rest.length + 1 := by simp
    have hr0 : tx.nextRowid ≤ maxRowid := by
      have : (0 : Int) ≤ rest.length := Int.natCast_nonneg _
      omega
    have hnext := nextRowid_insertRow tx x.Title x.Category (resolvePrix x) x.Img
    obtain ⟨tx1, h1, h2, h3⟩ := ih (k + 1) (tx.insertRow x.Title x.Category (resolvePrix x) x.Img)
      (fun j hj => by
        have := hexec (j + 1) (by simp; omega)
        rw [← this]
        congr 1
        omega)
      (by rw [hnext]; omega)
    refine ⟨tx1, ?_, ?_, ?_⟩
    · simp only [insertLoop, h0, execInsert_ok tx _ _ _ _ hr0, h1]
    · rw [h2, hnext]
      simp [DB.insertRow, importedRows]
    · rw [h3, hnext]
      omega

/-- The loop ends with the error of the first insert that fails: an error of the engine, or
`SQLITE_FULL` when the rowids are used up. -/
theorem insertLoop_error (exec : Nat → Option Err) (items : List PortfolioItem) (k : Nat)
    (tx : DB) (j : Nat) (e : Err) (hj : j < items.length)
    (hbefore : ∀ i, i < j → exec (k + i) = none)
    (hroom : tx.nextRowid + j ≤ maxRowid + 1)
    (hfail : exec (k + j) = some e ∨
      (exec (k + j) = none ∧ maxRowid < tx.nextRowid + j ∧ e = sqliteFull)) :
    insertLoop exec k tx items = Except.error e := by
  induction items generalizing k tx j with
  | nil => simp at hj
  | cons x rest ih =>
    cases j with
    | zero =>
      simp only [Nat.add_zero, Nat.cast_zero, add_zero] at hfail
      rcases hfail with h | ⟨h1, h2, h3⟩
      · simp only [insertLoop, h, execInsert]
      · simp only [insertLoop, h1, execInsert_full tx _ _ _ _ h2, h3]
    | succ j =>
      have h0 : exec k = none := by simpa using hbefore 0 (by simp)
      have hr0 : tx.nextRowid ≤ maxRowid := by
        have : ((j + 1 : Nat) : Int) = j + 1 := by simp
        have : (0 : Int) ≤ j := Int.natCast_nonneg _
        omega
      have hnext := nextRowid_insertRow tx x.Title x.Category (resolvePrix x) x.Img
      have hrec := ih (k + 1) (tx.insertRow x.Title x.Category (resolvePrix x) x.Img) j
        (by simpa using hj)
        (fun i hi => by
          have := hbefore (i + 1) (by omega)
          rw [← this]
          congr 1
          omega)
        (by rw [hnext]; push_cast at hroom; omega)
        (by
          rw [hnext]
          have hk : k + (j + 1) = k + 1 + j := by omega
          rw [hk] at hfail
          push_cast at hfail
          rcases hfail with h | ⟨h1, h2, h3⟩
          · exact Or.inl h
          · exact Or.inr ⟨h1, by omega, h3⟩)
      simp only [insertLoop, h0, execInsert_ok tx _ _ _ _ hr0, hrec]

/-- A loop that ends without error has inserted every item, in order. -/
theorem insertLoop_eq_ok (exec : Nat → Option Err) (items : List PortfolioItem) (k : Nat)
    (tx tx1 : DB) (h : insertLoop exec k tx items = Except.ok tx1) :
    tx1.rows = tx.rows ++ importedRows tx.nextRowid items := by
  induction items generalizing k tx with
  | nil =>
    simp only [insertLoop] at h
    cases h
    simp [importedRows]
  | cons x rest ih =>
    simp only [insertLoop] at h
    cases hx : execInsert (exec k) tx x.Title x.Category (resolvePrix x) x.Img with
    | error e => rw [hx] at h; cases h
    | ok res =>
      obtain ⟨tx2, id⟩ := res
      rw [hx] at h
      obtain ⟨_, _, h2, _⟩ := execInsert_eq_ok _ _ _ _ _ _ _ _ hx
      have h3 := ih (k + 1) tx2 h
      rw [h3, h2, nextRowid_insertRow]
      simp [DB.insertRow, importedRows]

/-- An import into an empty table that returns no error has decoded the whole array and run
the loop to its end. -/
theorem LoadJSONToDB_eq_ok (F : LoadFaults) (db db1 : DB) (elems : List JSON)
    (hempty : db.rows = [])
    (h : LoadJSONToDB F db (SeedSource.document (JSON.arr elems)) = (none, db1)) :
    ∃ items, unmarshalElems elems = Except.ok items ∧
      insertLoop F.exec 0 db items = Except.ok db1 := by
  simp only [LoadJSONToDB, tableCount, readFile, unmarshalItems, execAddPrixColumn, hempty,
    List.length_nil] at h
  cases hc : F.count with
  | some e => simp [hc] at h
  | none =>
    simp only [hc, gt_iff_lt, lt_self_iff_false, if_false] at h
    cases hu : unmarshalElems elems with
    | error e => simp [hu] at h
    | ok items =>
      simp only [hu] at h
      cases hb : F.begin with
      | some e => simp [hb] at h
      | none =>
        simp only [hb] at h
        cases hp : F.prepare with
        | some e => simp [hp] at h
        | none =>
          simp only [hp] at h
          cases hl : insertLoop F.exec 0 db items with
          | error e => simp [hl] at h
          | ok tx1 =>
            simp only [hl] at h
            cases hm : F.commit with
            | some e => simp [hm] at h
            | none =>
              simp only [hm, Prod.mk.injEq, true_and] at h
              exact ⟨items, rfl, by rw [← h, hl]⟩

/-! ## `LoadJSONToDB`: the claims -/

/-- C1 (the code departs from it). A seed object with no `prix` member and the member
`price: 7.5` is imported into an empty table with price 0, not 7.5: the object is first decoded
into a `PortfolioItem`, which has no field for `price`, and the map the loop looks into is
built from that item. -/
theorem price_only_object_imported_with_zero :
    LoadJSONToDB LoadFaults.healthy ⟨[], 0⟩
      (SeedSource.document (JSON.arr [JSON.obj
        [("title", JSON.str "Logo"), ("category", JSON.str "design"),
         ("img", JSON.str "/x.png"), ("price", JSON.num ⟨some 7.5, none⟩)]])) =
      (none, ⟨[⟨1, "Logo", "design", some 0, "/x.png"⟩], 1⟩) := by
  decide

/-- C2 as stated fails: the object has the member `prix: 5` (and `price: 10`), and the record
imported has price 7, because the later member `PRIX: 7` is decoded into the same field. -/
theorem prix_member_overwritten_by_case_variant :
    LoadJSONToDB LoadFaults.healthy ⟨[], 0⟩
      (SeedSource.document (JSON.arr [JSON.obj
        [("title", JSON.str "Logo"), ("prix", JSON.num ⟨some 5, some 5⟩),
         ("price", JSON.num ⟨some 10, some 10⟩), ("PRIX", JSON.num ⟨some 7, some 7⟩)]])) =
      (none, ⟨[⟨1, "Logo", "", some 7, ""⟩], 1⟩) ∧ (some (7 : Float64) ≠ some 5) := by
  decide

/-- C2, amended. When an import into an empty table goes through, the record of an object
that has a member `prix` with a number of value `p`, and after it no member whose key equals
`prix` up to letter case, has price `p`, whatever the other members of the object are. -/
theorem prix_member_wins (F : LoadFaults) (db db1 : DB) (elems : List JSON) (k : Nat)
    (pre post : List (String × JSON)) (n : NumLit) (p : ℚ)
    (hempty : db.rows = [])
    (hload : LoadJSONToDB F db (SeedSource.document (JSON.arr elems)) = (none, db1))
    (hobj : elems[k]? = some (JSON.obj (pre ++ ("prix", JSON.num n) :: post)))
    (hp : n.float64 = some p)
    (hlast : ∀ kv ∈ post, equalFold "prix" kv.1 = false) :
    ∃ r, db1.rows[k]? = some r ∧ r.prix = some (Float64.fin p) := by
  obtain ⟨items, hitems, hloop⟩ := LoadJSONToDB_eq_ok F db db1 elems hempty hload
  obtain ⟨_, hget⟩ := unmarshalElems_getElem elems items hitems
  obtain ⟨it, hit, hdec⟩ := hget k _ hobj
  have hprix : it.Prix = Float64.fin p := unmarshalItem_prix pre post n p it hp hlast hdec
  have hrows := insertLoop_eq_ok F.exec items 0 db db1 hloop
  refine ⟨⟨db.nextRowid + k, it.Title, it.Category, bindDouble (resolvePrix it), it.Img⟩, ?_, ?_⟩
  · rw [hrows, hempty, List.nil_append]
    exact importedRows_getElem db.nextRowid items k it hit
  · show bindDouble (resolvePrix it) = some (Float64.fin p)
    rw [bindDouble_resolvePrix _ it hdec, hprix]

/-- The amended C2 at the spec's example: `prix: 5` together with `price: 10`. -/
theorem prix_member_wins_witness :
    ∃ r, (⟨[⟨1, "", "", some 5, ""⟩], 1⟩ : DB).rows[0]? = some r ∧
      r.prix = some (Float64.fin 5) :=
  prix_member_wins LoadFaults.healthy ⟨[], 0⟩ ⟨[⟨1, "", "", some 5, ""⟩], 1⟩
    [JSON.obj [("prix", JSON.num ⟨some 5, some 5⟩), ("price", JSON.num ⟨some 10, some 10⟩)]]
    0 [] [("price", JSON.num ⟨some 10, some 10⟩)] ⟨some 5, some 5⟩ 5 rfl (by decide) rfl rfl
    (by decide)

/-- C3. On a table that holds at least one record `LoadJSONToDB` returns `nil` whenever the
count is read, whatever the seed source is (unreadable and malformed ones included), and it
leaves the database as it is under every outcome of the engine calls; so after a second call
the number of records is what it was. -/
theorem LoadJSONToDB_populated_noop (db : DB) (hrows : db.rows ≠ []) :
    (∀ (F : LoadFaults) (src : SeedSource), F.count = none →
      LoadJSONToDB F db src = (none, db)) ∧
    (∀ (F : LoadFaults) (src : SeedSource), (LoadJSONToDB F db src).2 = db) ∧
    (∀ (F1 F2 : LoadFaults) (src1 src2 : SeedSource),
      (LoadJSONToDB F2 (LoadJSONToDB F1 db src1).2 src2).2.rows.length = db.rows.length) := by
  have hlen : db.rows.length > 0 := List.length_pos.mpr hrows
  have h1 : ∀ (F : LoadFaults) (src : SeedSource), F.count = none →
      LoadJSONToDB F db src = (none, db) := by
    intro F src hc
    simp only [LoadJSONToDB, tableCount, hc, hlen, if_true]
  have h2 : ∀ (F : LoadFaults) (src : SeedSource), (LoadJSONToDB F db src).2 = db := by
    intro F src
    cases hc : F.count with
    | none => rw [h1 F src hc]
    | some e => simp only [LoadJSONToDB, tableCount, hc]
  refine ⟨h1, h2, ?_⟩
  intro F1 F2 src1 src2
  rw [h2 F1 src1, h2 F2 src2]

/-- C3 on a table with one record and a seed file that is not JSON. -/
theorem LoadJSONToDB_populated_noop_witness :
    LoadJSONToDB LoadFaults.healthy ⟨[⟨1, "Logo", "design", some 99.5, "/x.png"⟩], 1⟩
      SeedSource.malformed = (none, ⟨[⟨1, "Logo", "design", some 99.5, "/x.png"⟩], 1⟩) :=
  (LoadJSONToDB_populated_noop ⟨[⟨1, "Logo", "design", some 99.5, "/x.png"⟩], 1⟩
    (by decide)).1 LoadFaults.healthy SeedSource.malformed rfl

/-- C4 as stated fails: the object has the member `title: a`, and the record imported for it
has the title `b`, because the later member `TITLE: b` is decoded into the same field. -/
theorem title_member_overwritten_by_case_variant :
    LoadJSONToDB LoadFaults.healthy ⟨[], 0⟩
      (SeedSource.document (JSON.arr [JSON.obj
        [("title", JSON.str "a"), ("category", JSON.str "web"), ("img", JSON.str "a.png"),
         ("TITLE", JSON.str "b")]])) =
      (none, ⟨[⟨1, "b", "web", some 0, "a.png"⟩], 1⟩) ∧ "b" ≠ "a" := by
  decide

/-- C4, amended. Into an empty table, from a source that decodes as an array, when the engine
reports no error and the rowids suffice (so that every insert succeeds and the transaction
commits), `LoadJSONToDB` returns `nil` and leaves one record per element, in the order of
the source: record `k` has the rowid `nextRowid + k` and the fields of the item decoded from
element `k`, and when that element is an object with a member `title` (`category`, `img`)
holding a string, and after it no member whose key equals that name up to letter case, the
record carries that string. The rowids are above the largest one ever given out and strictly
increase along the table. -/
theorem LoadJSONToDB_imports_every_object (F : LoadFaults) (db : DB) (elems : List JSON)
    (items : List PortfolioItem)
    (hempty : db.rows = [])
    (hparse : unmarshalItems (some (JSON.arr elems)) = Except.ok items)
    (hcount : F.count = none) (hbegin : F.begin = none) (hprepare : F.prepare = none)
    (hexec : ∀ k, k < elems.length → F.exec k = none)
    (hroom : db.nextRowid + elems.length ≤ maxRowid + 1)
    (hcommit : F.commit = none) :
    ∃ db1, LoadJSONToDB F db (SeedSource.document (JSON.arr elems)) = (none, db1) ∧
      db1.rows.length = elems.length ∧
      (∀ (k : Nat) (e : JSON), elems[k]? = some e →
        ∃ it, unmarshalItem e = Except.ok it ∧
          db1.rows[k]? =
            some ⟨db.nextRowid + k, it.Title, it.Category, some it.Prix, it.Img⟩ ∧
          (∀ (pre post : List (String × JSON)) (s : String),
            e = JSON.obj (pre ++ ("title", JSON.str s) :: post) →
            (∀ kv ∈ post, equalFold "title" kv.1 = false) → it.Title = s) ∧
          (∀ (pre post : List (String × JSON)) (s : String),
            e = JSON.obj (pre ++ ("category", JSON.str s) :: post) →
            (∀ kv ∈ post, equalFold "category" kv.1 = false) → it.Category = s) ∧
          (∀ (pre post : List (String × JSON)) (s : String),
            e = JSON.obj (pre ++ ("img", JSON.str s) :: post) →
            (∀ kv ∈ post, equalFold "img" kv.1 = false) → it.Img = s)) ∧
      (∀ r ∈ db1.rows, db.seq < r.id) ∧
      List.Pairwise (fun a b : Row => a.id < b.id) db1.rows := by
  have hitems : unmarshalElems elems = Except.ok items := hparse
  obtain ⟨hlen, hget⟩ := unmarshalElems_getElem elems items hitems
  obtain ⟨tx1, hloop, hrows, _⟩ := insertLoop_ok F.exec items 0 db
    (fun j hj => by rw [Nat.zero_add]; exact hexec j (hlen ▸ hj)) (by rw [hlen]; exact hroom)
  rw [hempty, List.nil_append] at hrows
  refine ⟨tx1, ?_, ?_, ?_, ?_, ?_⟩
  · simp only [LoadJSONToDB, tableCount, hcount, hempty, List.length_nil, gt_iff_lt,
      lt_self_iff_false, if_false, readFile, unmarshalItems, hitems, hbegin, hprepare,
      execAddPrixColumn, hloop, hcommit]
  · rw [hrows, importedRows_length, hlen]
  · intro k e hk
    obtain ⟨it, hit, hdec⟩ := hget k e hk
    refine ⟨it, hdec, ?_, ?_, ?_, ?_⟩
    · rw [hrows, importedRows_getElem db.nextRowid items k it hit,
        bindDouble_resolvePrix e it hdec]
    · intro pre post s he hlast
      rw [he] at hdec
      exact unmarshalItem_title pre post s it hlast hdec
    · intro pre post s he hlast
      rw [he] at hdec
      exact unmarshalItem_category pre post s it hlast hdec
    · intro pre post s he hlast
      rw [he] at hdec
      exact unmarshalItem_img pre post s it hlast hdec
  · intro r hr
    rw [hrows] at hr
    have h1 := (importedRows_ids db.nextRowid items).1 r hr
    have h2 := seq_lt_nextRowid db
    omega
  · rw [hrows]
    exact (importedRows_ids db.nextRowid items).2

/-- The amended C4 on a seed file of two objects: two records, the first with the title and
the image of the first object. -/
theorem LoadJSONToDB_imports_every_object_witness :
    ∃ db1, LoadJSONToDB LoadFaults.healthy ⟨[], 0⟩ (SeedSource.document (JSON.arr
        [JSON.obj [("title", JSON.str "a"), ("img", JSON.str "a.png")],
         JSON.obj [("title", JSON.str "b"), ("category", JSON.str "web")]])) = (none, db1) ∧
      db1.rows.length = 2 ∧
      ∃ it : PortfolioItem, db1.rows[0]? =
          some ⟨(⟨[], 0⟩ : DB).nextRowid + (0 : Nat), it.Title, it.Category, some it.Prix,
            it.Img⟩ ∧
        it.Title = "a" ∧ it.Img = "a.png" :=
  let ⟨db1, h1, h2, h3, _⟩ := LoadJSONToDB_imports_every_object LoadFaults.healthy ⟨[], 0⟩
    [JSON.obj [("title", JSON.str "a"), ("img", JSON.str "a.png")],
     JSON.obj [("title", JSON.str "b"), ("category", JSON.str "web")]]
    [⟨0, "a", "", 0, "a.png"⟩, ⟨0, "b", "web", 0, ""⟩]
    rfl rfl rfl rfl rfl (fun _ _ => rfl) (by decide) rfl
  let ⟨it, _, hrow, ht, _, hi⟩ :=
    h3 0 (JSON.obj [("title", JSON.str "a"), ("img", JSON.str "a.png")]) rfl
  ⟨db1, h1, h2, it, hrow,
    ht [] [("img", JSON.str "a.png")] "a" rfl (by decide),
    hi [("title", JSON.str "a")] [] "a.png" rfl (by decide)⟩

/-- C5. During an import into an empty table from a source that was read and decoded, when
the insert of the item at index `k` is the first to fail, with the engine's error `e` or with
`SQLITE_FULL` because the rowids are used up, `LoadJSONToDB` returns that error and leaves the
database exactly as it was: the records inserted for the items before `k` are gone. -/
theorem LoadJSONToDB_rolls_back (F : LoadFaults) (db : DB) (src : SeedSource)
    (data : Option JSON) (items : List PortfolioItem) (k : Nat) (e : Err)
    (hempty : db.rows = [])
    (hread : readFile src = Except.ok data)
    (hparse : unmarshalItems data = Except.ok items)
    (hcount : F.count = none) (hbegin : F.begin = none) (hprepare : F.prepare = none)
    (hk : k < items.length)
    (hbefore : ∀ i, i < k → F.exec i = none)
    (hroom : db.nextRowid + k ≤ maxRowid + 1)
    (hfail : F.exec k = some e ∨
      (F.exec k = none ∧ maxRowid < db.nextRowid + k ∧ e = sqliteFull)) :
    LoadJSONToDB F db src = (some e, db) := by
  have hloop : insertLoop F.exec 0 db items = Except.error e :=
    insertLoop_error F.exec items 0 db k e hk
      (fun i hi => by rw [Nat.zero_add]; exact hbefore i hi) hroom
      (by rw [Nat.zero_add]; exact hfail)
  simp only [LoadJSONToDB, tableCount, hcount, hempty, List.length_nil, gt_iff_lt,
    lt_self_iff_false, if_false, hread, hparse, hbegin, hprepare, execAddPrixColumn, hloop]

/-- C5 on a seed file of two objects, the insert of the second failing. -/
theorem LoadJSONToDB_rolls_back_witness :
    LoadJSONToDB
      { count := none, begin := none, prepare := none,
        exec := fun k => if k = 1 then some (Err.sql 19) else none, commit := none }
      ⟨[], 0⟩
      (SeedSource.document (JSON.arr
        [JSON.obj [("title", JSON.str "a")], JSON.obj [("title", JSON.str "b")]])) =
      (some (Err.sql 19), ⟨[], 0⟩) :=
  LoadJSONToDB_rolls_back _ ⟨[], 0⟩ _ _ [⟨0, "a", "", 0, ""⟩, ⟨0, "b", "", 0, ""⟩] 1
    (Err.sql 19) rfl rfl rfl rfl rfl rfl (by decide)
    (fun i hi => by
      have h0 : i = 0 := by omega
      subst h0
      rfl)
    (by decide) (Or.inl rfl)

/-! ## Lemmas on listing and inserting -/

theorem scanRows_healthy (rows : List Row) (k : Nat) (out : List PortfolioItem) :
    scanRows QueryFaults.healthy k rows out = (out ++ rows.map scanItem, none) := by
  induction rows generalizing k out with
  | nil => simp [scanRows, QueryFaults.healthy]
  | cons r rest ih =>
    simp only [scanRows, QueryFaults.healthy] at ih ⊢
    rw [ih]
    simp

/-- Without engine errors `GetAllPortfolio` returns the rows in the order of the query. -/
theorem GetAllPortfolio_healthy (db : DB) :
    GetAllPortfolio QueryFaults.healthy db = ((selectAll db).map scanItem, none) := by
  have h := scanRows_healthy (selectAll db) 0 []
  simp only [List.nil_append] at h
  simp only [GetAllPortfolio, execAddPrixColumn]
  exact h

theorem orderedInsert_append_last (x a : Row) (l : List Row) (hxa : x.id ≤ a.id) :
    List.orderedInsert (fun a b : Row => a.id ≤ b.id) x (l ++ [a]) =
      List.orderedInsert (fun a b : Row => a.id ≤ b.id) x l ++ [a] := by
  induction l with
  | nil => simp [List.orderedInsert, hxa]
  | cons y l ih =>
    simp only [List.cons_append, List.orderedInsert]
    by_cases hxy : x.id ≤ y.id
    · simp [hxy]
    · simp [hxy, ih]

/-- Sorting by `id` keeps a last row whose `id` is the largest in last place. -/
theorem insertionSort_append_last (a : Row) (l : List Row) (h : ∀ x ∈ l, x.id ≤ a.id) :
    List.insertionSort (fun a b : Row => a.id ≤ b.id) (l ++ [a]) =
      List.insertionSort (fun a b : Row => a.id ≤ b.id) l ++ [a] := by
  induction l with
  | nil => simp
  | cons y l ih =>
    have hstep : List.insertionSort (fun a b : Row => a.id ≤ b.id) (y :: l ++ [a]) =
        List.orderedInsert (fun a b : Row => a.id ≤ b.id) y
          (List.insertionSort (fun a b : Row => a.id ≤ b.id) (l ++ [a])) := rfl
    rw [hstep, ih (fun x hx => h x (List.mem_cons_of_mem _ hx))]
    exact orderedInsert_append_last y a _ (h y (List.mem_cons_self _ _))

/-- The query lists a newly inserted row last. -/
theorem selectAll_insertRow (db : DB) (t c : String) (p : Float64) (i : String) :
    selectAll (db.insertRow t c p i) =
      selectAll db ++ [⟨db.nextRowid, t, c, bindDouble p, i⟩] := by
  simp only [selectAll, DB.insertRow]
  exact insertionSort_append_last ⟨db.nextRowid, t, c, bindDouble p, i⟩ db.rows
    (fun x hx => le_of_lt (id_lt_nextRowid db x hx))

/-- The rows of the query are the rows of the table, by ascending `id`. -/
theorem selectAll_sorted (db : DB) :
    List.Pairwise (fun a b : Row => a.id ≤ b.id) (selectAll db) ∧
      List.Perm (selectAll db) db.rows := by
  constructor
  · have hs := @List.sorted_insertionSort Row (fun a b : Row => a.id ≤ b.id) _
      ⟨fun a b => le_total a.id b.id⟩ ⟨fun a b c hab hbc => le_trans hab hbc⟩ db.rows
    exact hs
  · exact List.perm_insertionSort _ db.rows

/-- A table with a primary key is listed by strictly ascending `id`. -/
theorem GetAllPortfolio_strictly_ascending (db : DB) (hkey : (db.rows.map Row.id).Nodup) :
    List.Pairwise (fun a b : PortfolioItem => a.ID < b.ID)
      (GetAllPortfolio QueryFaults.healthy db).1 := by
  rw [GetAllPortfolio_healthy]
  obtain ⟨hsorted, hperm⟩ := selectAll_sorted db
  have hnodup : ((selectAll db).map Row.id).Nodup := (hperm.map Row.id).nodup_iff.mpr hkey
  have hpw : List.Pairwise (fun a b : Row => a.id ≠ b.id) (selectAll db) :=
    (List.pairwise_map).mp hnodup
  show List.Pairwise _ ((selectAll db).map scanItem)
  rw [List.pairwise_map]
  exact (hsorted.and hpw).imp (fun h => lt_of_le_of_ne h.1 h.2)

/-- A successful `InsertPortfolio` inserted a row with the next rowid and wrote that rowid
into the item. -/
theorem InsertPortfolio_eq_ok (F : InsertFaults) (db db1 : DB) (it it1 : PortfolioItem)
    (h : InsertPortfolio F db it = (none, db1, it1)) :
    db.nextRowid ≤ maxRowid ∧ db1 = db.insertRow it.Title it.Category it.Prix it.Img ∧
      it1 = { it with ID := db.nextRowid } := by
  unfold InsertPortfolio at h
  cases hx : execInsert F.exec db it.Title it.Category it.Prix it.Img with
  | error e => simp [hx] at h
  | ok res =>
    obtain ⟨db2, id⟩ := res
    obtain ⟨_, hroom, hdb, hid⟩ := execInsert_eq_ok _ _ _ _ _ _ _ _ hx
    simp only [hx] at h
    cases hl : F.lastInsertId with
    | some e => simp [hl] at h
    | none =>
      simp only [hl, Prod.mk.injEq, true_and] at h
      obtain ⟨h1, h2⟩ := h
      exact ⟨hroom, by rw [← h1, hdb], by rw [← h2, hid]⟩

theorem InsertPortfolio_healthy (db : DB) (it : PortfolioItem)
    (hroom : db.nextRowid ≤ maxRowid) :
    InsertPortfolio InsertFaults.healthy db it =
      (none, db.insertRow it.Title it.Category it.Prix it.Img,
        { it with ID := db.nextRowid }) := by
  simp only [InsertPortfolio, InsertFaults.healthy, execInsert_ok db _ _ _ _ hroom]

theorem nodup_insertRow (db : DB) (t c : String) (p : Float64) (i : String)
    (hkey : (db.rows.map Row.id).Nodup) :
    ((db.insertRow t c p i).rows.map Row.id).Nodup := by
  simp only [DB.insertRow, List.map_append, List.map_cons, List.map_nil]
  rw [List.nodup_append]
  refine ⟨hkey, List.nodup_singleton _, ?_⟩
  intro x hx hx1
  simp only [List.mem_singleton] at hx1
  obtain ⟨r, hr, hrx⟩ := List.mem_map.mp hx
  have := id_lt_nextRowid db r hr
  omega

/-- A price that is not NaN is listed as it was inserted. -/
theorem readBack_eq (x : Float64) (h : x ≠ Float64.nan) : readBack x = x := by
  cases x with
  | nan => exact absurd rfl h
  | fin q => rfl
  | posInf => rfl
  | negInf => rfl

/-- A run of successful `InsertPortfolio` calls appends the items, with the ids written into
them and the prices as they are read back, to what `GetAllPortfolio` returns, and keeps the
ids of the table distinct. -/
theorem insertSeq_eq_ok (F : Nat → InsertFaults) (items : List PortfolioItem) (k : Nat)
    (db db1 : DB) (out : List PortfolioItem)
    (h : insertSeq F k db items = Except.ok (db1, out)) :
    (GetAllPortfolio QueryFaults.healthy db1).1 =
        (GetAllPortfolio QueryFaults.healthy db).1 ++
          out.map (fun it => { it with Prix := readBack it.Prix }) ∧
      ((∀ it ∈ items, it.Prix ≠ Float64.nan) →
        (GetAllPortfolio QueryFaults.healthy db1).1 =
          (GetAllPortfolio QueryFaults.healthy db).1 ++ out) ∧
      ((db.rows.map Row.id).Nodup → (db1.rows.map Row.id).Nodup) ∧
      out.length = items.length ∧
      (∀ (j : Nat) (it : PortfolioItem), items[j]? = some it →
        ∃ id, out[j]? = some ⟨id, it.Title, it.Category, it.Prix, it.Img⟩) := by
  induction items generalizing k db out with
  | nil =>
    simp only [insertSeq, Except.ok.injEq, Prod.mk.injEq] at h
    obtain ⟨h1, h2⟩ := h
    subst h1 h2
    simp
  | cons x rest ih =>
    simp only [insertSeq] at h
    cases hx : InsertPortfolio (F k) db x with
    | mk err res =>
      obtain ⟨db2, x1⟩ := res
      rw [hx] at h
      cases err with
      | some e => simp at h
      | none =>
        simp only at h
        cases hr : insertSeq F (k + 1) db2 rest with
        | error e => rw [hr] at h; simp at h
        | ok res2 =>
          obtain ⟨db3, out2⟩ := res2
          rw [hr] at h
          simp only [Except.ok.injEq, Prod.mk.injEq] at h
          obtain ⟨h1, h2⟩ := h
          subst h1 h2
          obtain ⟨_, hdb2, hx1⟩ := InsertPortfolio_eq_ok _ _ _ _ _ hx
          obtain ⟨g1, g1', g2, g3, g4⟩ := ih (k + 1) db2 out2 hr
          have hlist : (GetAllPortfolio QueryFaults.healthy db2).1 =
              (GetAllPortfolio QueryFaults.healthy db).1 ++
                [{ x1 with Prix := readBack x1.Prix }] := by
            rw [GetAllPortfolio_healthy db2, GetAllPortfolio_healthy db, hdb2,
              selectAll_insertRow, hx1]
            simp [scanItem, readBack]
          refine ⟨?_, ?_, ?_, by simp [g3], ?_⟩
          · rw [g1, hlist]
            simp
          · intro hnan
            rw [g1' (fun it hit => hnan it (List.mem_cons_of_mem _ hit)), hlist]
            have hx0 : x1.Prix ≠ Float64.nan := by
              rw [hx1]
              exact hnan x (List.mem_cons_self _ _)
            rw [readBack_eq x1.Prix hx0]
            simp
          · intro hkey
            exact g2 (hdb2 ▸ nodup_insertRow db _ _ _ _ hkey)
          · intro j it hj
            cases j with
            | zero =>
              simp only [List.getElem?_cons_zero, Option.some.injEq] at hj
              subst hj
              exact ⟨db.nextRowid, by simp [hx1]⟩
            | succ j =>
              simp only [List.getElem?_cons_succ] at hj
              obtain ⟨id, hid⟩ := g4 j it hj
              exact ⟨id, by simpa using hid⟩

/-! ## Lemmas on the handler -/

/-- A POST whose form is parsed, has a file under `img` and whose file is created comes to
the check of title and image reference. -/
theorem portfolioHandler_post (E : HandlerEnv) (s : Server) (r : Request) (h : FileHeader)
    (hpost : r.Method = "POST") (hparse : r.parseMultipartForm = none)
    (himg : r.img = some h) (hcreate : E.create = none) :
    portfolioHandler E s r =
      if r.FormValue "title" = "" ∨ "/assets/img/portfolio/" ++ h.Filename = "" then
        (⟨400, Body.text "missing title or img"⟩,
          ⟨s.db, ioCopy E.copy
            (("../assets/img/portfolio/" ++ h.Filename, "") ::
              s.files.filter (fun f => f.1 != "../assets/img/portfolio/" ++ h.Filename))
            ("../assets/img/portfolio/" ++ h.Filename) h.content⟩)
      else
        match InsertPortfolio E.insert s.db
            ⟨1, r.FormValue "title", r.FormValue "category",
              (E.sscanf (r.FormValue "prix")).getD 0,
              "/assets/img/portfolio/" ++ h.Filename⟩ with
        | (some _, db1, _) =>
          (⟨500, Body.text "failed to insert item"⟩,
            ⟨db1, ioCopy E.copy
              (("../assets/img/portfolio/" ++ h.Filename, "") ::
                s.files.filter (fun f => f.1 != "../assets/img/portfolio/" ++ h.Filename))
              ("../assets/img/portfolio/" ++ h.Filename) h.content⟩)
        | (none, db1, item1) =>
          (⟨201, Body.item item1⟩,
            ⟨db1, ioCopy E.copy
              (("../assets/img/portfolio/" ++ h.Filename, "") ::
                s.files.filter (fun f => f.1 != "../assets/img/portfolio/" ++ h.Filename))
              ("../assets/img/portfolio/" ++ h.Filename) h.content⟩) := by
  have hget : ¬ r.Method = "GET" := by rw [hpost]; decide
  unfold portfolioHandler
  rw [if_neg hget, if_pos hpost]
  simp only [hparse, himg, osCreate, hcreate]

/-- A response 201 comes from a successful `InsertPortfolio` and carries the item that call
left. -/
theorem portfolioHandler_created (E : HandlerEnv) (s : Server) (r : Request)
    (hstatus : (portfolioHandler E s r).1.status = 201) :
    ∃ (h : FileHeader) (db1 : DB) (it1 : PortfolioItem),
      InsertPortfolio E.insert s.db
        ⟨1, r.FormValue "title", r.FormValue "category",
          (E.sscanf (r.FormValue "prix")).getD 0,
          "/assets/img/portfolio/" ++ h.Filename⟩ = (none, db1, it1) ∧
      (portfolioHandler E s r).1.body = Body.item it1 ∧
      (portfolioHandler E s r).2.db = db1 := by
  revert hstatus
  unfold portfolioHandler
  by_cases hget : r.Method = "GET"
  · rw [if_pos hget]
    cases GetAllPortfolio E.query s.db with
    | mk its err => cases err <;> simp
  rw [if_neg hget]
  by_cases hpost : r.Method = "POST"
  swap
  · rw [if_neg hpost]
    simp
  rw [if_pos hpost]
  cases r.parseMultipartForm with
  | some e => simp
  | none =>
    cases r.img with
    | none => simp
    | some h =>
      dsimp only
      cases osCreate E.create s.files ("../assets/img/portfolio/" ++ h.Filename) with
      | error e => simp
      | ok files1 =>
        dsimp only
        by_cases hmiss : r.FormValue "title" = "" ∨ "/assets/img/portfolio/" ++ h.Filename = ""
        · rw [if_pos hmiss]
          simp
        · rw [if_neg hmiss]
          cases hins : InsertPortfolio E.insert s.db
              ⟨1, r.FormValue "title", r.FormValue "category",
                (E.sscanf (r.FormValue "prix")).getD 0,
                "/assets/img/portfolio/" ++ h.Filename⟩ with
          | mk err res =>
            obtain ⟨db1, it1⟩ := res
            cases err with
            | some e => simp
            | none =>
              intro _
              exact ⟨h, db1, it1, hins, rfl, rfl⟩

/-! ## `InsertPortfolio`, `GetAllPortfolio` and the handler: the claims -/

/-- C6 as stated fails: the item with the price NaN (which `fmt.Sscanf` reads from the form
value `NaN`) is inserted into an empty table with success, SQLite stores the price as `NULL`,
and the one record `GetAllPortfolio` yields has the price 0. -/
theorem nan_price_listed_as_zero :
    InsertPortfolio InsertFaults.healthy ⟨[], 0⟩ ⟨0, "Logo", "design", Float64.nan, "/x.png"⟩ =
      (none, ⟨[⟨1, "Logo", "design", none, "/x.png"⟩], 1⟩,
        ⟨1, "Logo", "design", Float64.nan, "/x.png"⟩) ∧
    GetAllPortfolio QueryFaults.healthy ⟨[⟨1, "Logo", "design", none, "/x.png"⟩], 1⟩ =
      ([⟨1, "Logo", "design", 0, "/x.png"⟩], none) ∧
    (0 : Float64) ≠ Float64.nan := by
  decide

/-- C6, amended. On an empty table, a successful `InsertPortfolio` of an item whose price is
not NaN, followed by `GetAllPortfolio`, yields exactly one record: it has the title, category,
price and image reference of the inserted item, and its id is not zero and is the id written
back into the item. The insert does succeed when the engine reports no error and the rowids
are not used up. -/
theorem insert_then_list_roundtrip (db : DB) (it : PortfolioItem) (hempty : db.rows = [])
    (hprix : it.Prix ≠ Float64.nan) :
    (∀ (F : InsertFaults) (db1 : DB) (it1 : PortfolioItem),
      InsertPortfolio F db it = (none, db1, it1) →
        GetAllPortfolio QueryFaults.healthy db1 = ([it1], none) ∧
        it1.Title = it.Title ∧ it1.Category = it.Category ∧ it1.Prix = it.Prix ∧
        it1.Img = it.Img ∧ it1.ID ≠ 0) ∧
    (db.nextRowid ≤ maxRowid →
      ∃ db1 it1, InsertPortfolio InsertFaults.healthy db it = (none, db1, it1)) := by
  constructor
  · intro F db1 it1 h
    obtain ⟨_, hdb, hit⟩ := InsertPortfolio_eq_ok F db db1 it it1 h
    have hpos := nextRowid_pos_of_empty db hempty
    refine ⟨?_, by rw [hit], by rw [hit], by rw [hit], by rw [hit], ?_⟩
    · rw [GetAllPortfolio_healthy, hdb, selectAll_insertRow, hit]
      have hback : (match bindDouble it.Prix with
                    | some p => p
                    | none => 0) = it.Prix := readBack_eq it.Prix hprix
      simp [selectAll, hempty, scanItem, hback]
    · rw [hit]
      show db.nextRowid ≠ 0
      omega
  · intro hroom
    exact ⟨_, _, InsertPortfolio_healthy db it hroom⟩

/-- The amended C6 at the spec's example: title `Logo`, category `design`, price 99.5, image
`/x.png`. -/
theorem insert_then_list_roundtrip_witness :
    GetAllPortfolio QueryFaults.healthy ⟨[⟨1, "Logo", "design", some 99.5, "/x.png"⟩], 1⟩ =
      ([⟨1, "Logo", "design", 99.5, "/x.png"⟩], none) :=
  ((insert_then_list_roundtrip ⟨[], 0⟩ ⟨0, "Logo", "design", 99.5, "/x.png"⟩ rfl
    (by intro h; cases h)).1
    InsertFaults.healthy ⟨[⟨1, "Logo", "design", some 99.5, "/x.png"⟩], 1⟩
    ⟨1, "Logo", "design", 99.5, "/x.png"⟩ rfl).1

/-- C7. After a run of successful `InsertPortfolio` calls on a table whose ids are distinct
(`id` is the primary key), `GetAllPortfolio` returns the records by strictly ascending id:
first what it returned before the run, then the inserted items, in the order of the calls,
each with the id its call wrote into it (and with price 0 where the inserted price was NaN). -/
theorem list_after_inserts_ascending (F : Nat → InsertFaults) (db db1 : DB)
    (items out : List PortfolioItem)
    (hkey : (db.rows.map Row.id).Nodup)
    (hins : insertSeq F 0 db items = Except.ok (db1, out)) :
    (GetAllPortfolio QueryFaults.healthy db1).2 = none ∧
    List.Pairwise (fun a b : PortfolioItem => a.ID < b.ID)
      (GetAllPortfolio QueryFaults.healthy db1).1 ∧
    (GetAllPortfolio QueryFaults.healthy db1).1 =
      (GetAllPortfolio QueryFaults.healthy db).1 ++
        out.map (fun it => { it with Prix := readBack it.Prix }) ∧
    ((∀ it ∈ items, it.Prix ≠ Float64.nan) →
      (GetAllPortfolio QueryFaults.healthy db1).1 =
        (GetAllPortfolio QueryFaults.healthy db).1 ++ out) ∧
    out.length = items.length ∧
    (∀ (j : Nat) (it : PortfolioItem), items[j]? = some it →
      ∃ id, out[j]? = some ⟨id, it.Title, it.Category, it.Prix, it.Img⟩) := by
  obtain ⟨h1, h1', h2, h3, h4⟩ := insertSeq_eq_ok F items 0 db db1 out hins
  refine ⟨by rw [GetAllPortfolio_healthy], ?_, h1, h1', h3, h4⟩
  exact GetAllPortfolio_strictly_ascending db1 (h2 hkey)

/-- C7 on three items inserted into an empty table. -/
theorem list_after_inserts_ascending_witness :
    (GetAllPortfolio QueryFaults.healthy
        ⟨[⟨1, "a", "", some 1, "a.png"⟩, ⟨2, "b", "", some 2, "b.png"⟩,
          ⟨3, "c", "", some 3, "c.png"⟩], 3⟩).1 =
      (GetAllPortfolio QueryFaults.healthy ⟨[], 0⟩).1 ++
        [⟨1, "a", "", 1, "a.png"⟩, ⟨2, "b", "", 2, "b.png"⟩, ⟨3, "c", "", 3, "c.png"⟩] :=
  (list_after_inserts_ascending (fun _ => InsertFaults.healthy) ⟨[], 0⟩
    ⟨[⟨1, "a", "", some 1, "a.png"⟩, ⟨2, "b", "", some 2, "b.png"⟩,
      ⟨3, "c", "", some 3, "c.png"⟩], 3⟩
    [⟨0, "a", "", 1, "a.png"⟩, ⟨0, "b", "", 2, "b.png"⟩, ⟨0, "c", "", 3, "c.png"⟩]
    [⟨1, "a", "", 1, "a.png"⟩, ⟨2, "b", "", 2, "b.png"⟩, ⟨3, "c", "", 3, "c.png"⟩]
    (by decide) rfl).2.2.2.1 (by decide)

/-- C8. `InsertPortfolio` does not read the `ID` of the item it is given: two items that
differ only there give the same error, the same database and, on success, the same item, whose
`ID` is the rowid of the new row. So a POST that ends with 201 returns the item with the rowid
of the row it inserted, which is larger than every id the table held, in place of the 1 the
handler put there. -/
theorem InsertPortfolio_ignores_id (F : InsertFaults) (db : DB) (it : PortfolioItem)
    (a b : Int) :
    (InsertPortfolio F db { it with ID := a }).1 = (InsertPortfolio F db { it with ID := b }).1 ∧
    (InsertPortfolio F db { it with ID := a }).2.1 =
      (InsertPortfolio F db { it with ID := b }).2.1 ∧
    ((InsertPortfolio F db { it with ID := a }).1 = none →
      (InsertPortfolio F db { it with ID := a }).2.2 =
        (InsertPortfolio F db { it with ID := b }).2.2 ∧
      (InsertPortfolio F db { it with ID := a }).2.2.ID = db.nextRowid ∧
      (InsertPortfolio F db { it with ID := a }).2.1.rows =
        db.rows ++ [⟨db.nextRowid, it.Title, it.Category, bindDouble it.Prix, it.Img⟩]) ∧
    (∀ (E : HandlerEnv) (s : Server) (r : Request), E.insert = F → s.db = db →
      (portfolioHandler E s r).1.status = 201 →
      ∃ it1, (portfolioHandler E s r).1.body = Body.item it1 ∧ it1.ID = db.nextRowid ∧
        (∀ r0 ∈ db.rows, r0.id < it1.ID) ∧
        (∃ c, (portfolioHandler E s r).2.db.rows =
          db.rows ++ [⟨it1.ID, it1.Title, c, bindDouble it1.Prix, it1.Img⟩])) := by
  have key : ∀ x : Int, InsertPortfolio F db { it with ID := x } =
      match execInsert F.exec db it.Title it.Category it.Prix it.Img with
      | Except.error e => (some e, db, { it with ID := x })
      | Except.ok (db1, id) =>
        match F.lastInsertId with
        | some e => (some e, db1, { it with ID := x })
        | none => (none, db1, { it with ID := id }) := fun x => rfl
  refine ⟨?_, ?_, ?_, ?_⟩
  · rw [key a, key b]
    cases execInsert F.exec db it.Title it.Category it.Prix it.Img with
    | error e => rfl
    | ok res => cases F.lastInsertId <;> rfl
  · rw [key a, key b]
    cases execInsert F.exec db it.Title it.Category it.Prix it.Img with
    | error e => rfl
    | ok res => cases F.lastInsertId <;> rfl
  · intro hok
    rw [key a, key b]
    rw [key a] at hok
    cases hx : execInsert F.exec db it.Title it.Category it.Prix it.Img with
    | error e => rw [hx] at hok; cases hok
    | ok res =>
      obtain ⟨db1, id⟩ := res
      obtain ⟨_, _, hdb, hid⟩ := execInsert_eq_ok _ _ _ _ _ _ _ _ hx
      rw [hx] at hok
      cases hl : F.lastInsertId with
      | some e => rw [hl] at hok; cases hok
      | none => exact ⟨rfl, hid, by rw [hdb]; rfl⟩
  · intro E s r hE hs hstatus
    obtain ⟨h, db1, it1, hins, hbody, hdb1⟩ := portfolioHandler_created E s r hstatus
    obtain ⟨_, hdb, hit⟩ := InsertPortfolio_eq_ok _ _ _ _ _ hins
    rw [hs] at hdb hit
    refine ⟨it1, hbody, by rw [hit], ?_, ?_⟩
    · intro r0 hr0
      rw [hit]
      exact id_lt_nextRowid db r0 hr0
    · exact ⟨r.FormValue "category", by rw [hdb1, hdb, hit]; rfl⟩

/-- C8 on a table that holds the ids 1 and 2: the item comes back with id 3 whether it went
in with id 1 or with id 77, and a POST that uploads `c.png` with title `c` is answered with
an item of id 3. -/
theorem InsertPortfolio_ignores_id_witness :
    ((InsertPortfolio InsertFaults.healthy
        ⟨[⟨1, "a", "", some 1, "a.png"⟩, ⟨2, "b", "", some 2, "b.png"⟩], 2⟩
        { (⟨0, "c", "", 3, "c.png"⟩ : PortfolioItem) with ID := 1 }).2.2 =
      (InsertPortfolio InsertFaults.healthy
        ⟨[⟨1, "a", "", some 1, "a.png"⟩, ⟨2, "b", "", some 2, "b.png"⟩], 2⟩
        { (⟨0, "c", "", 3, "c.png"⟩ : PortfolioItem) with ID := 77 }).2.2 ∧
    (InsertPortfolio InsertFaults.healthy
        ⟨[⟨1, "a", "", some 1, "a.png"⟩, ⟨2, "b", "", some 2, "b.png"⟩], 2⟩
        { (⟨0, "c", "", 3, "c.png"⟩ : PortfolioItem) with ID := 1 }).2.2.ID = 3) ∧
    (∃ it1, (portfolioHandler
        { sscanf := fun _ => some 3, create := none, copy := none,
          insert := InsertFaults.healthy, query := QueryFaults.healthy }
        ⟨⟨[⟨1, "a", "", some 1, "a.png"⟩, ⟨2, "b", "", some 2, "b.png"⟩], 2⟩, []⟩
        { Method := "POST", parseMultipartForm := none, FormValue := fun _ => "c",
          img := some ⟨"c.png", "bytes"⟩ }).1.body = Body.item it1 ∧ it1.ID = 3) :=
  let h := InsertPortfolio_ignores_id InsertFaults.healthy
    ⟨[⟨1, "a", "", some 1, "a.png"⟩, ⟨2, "b", "", some 2, "b.png"⟩], 2⟩
    ⟨0, "c", "", 3, "c.png"⟩ 1 77
  let h3 := h.2.2.1 (by decide)
  let ⟨it1, hbody, hid, _⟩ := h.2.2.2
    { sscanf := fun _ => some 3, create := none, copy := none,
      insert := InsertFaults.healthy, query := QueryFaults.healthy }
    ⟨⟨[⟨1, "a", "", some 1, "a.png"⟩, ⟨2, "b", "", some 2, "b.png"⟩], 2⟩, []⟩
    { Method := "POST", parseMultipartForm := none, FormValue := fun _ => "c",
      img := some ⟨"c.png", "bytes"⟩ }
    rfl rfl (by decide)
  ⟨⟨h3.1, h3.2.1⟩, ⟨it1, hbody, hid⟩⟩

/-- C9. A POST whose form has no file under `img` is answered with 400, whatever the form
fields are, and leaves the server as it was: no record is inserted (the number of records is
unchanged) and no file is written. -/
theorem post_without_img_rejected (E : HandlerEnv) (s : Server) (r : Request)
    (hpost : r.Method = "POST") (himg : r.img = none) :
    (portfolioHandler E s r).1.status = 400 ∧ (portfolioHandler E s r).2 = s ∧
      (portfolioHandler E s r).2.db.rows.length = s.db.rows.length := by
  have hget : ¬ r.Method = "GET" := by rw [hpost]; decide
  have h : (portfolioHandler E s r).1.status = 400 ∧ (portfolioHandler E s r).2 = s := by
    unfold portfolioHandler
    rw [if_neg hget, if_pos hpost]
    cases r.parseMultipartForm with
    | some e => exact ⟨rfl, rfl⟩
    | none =>
      dsimp only
      rw [himg]
      exact ⟨rfl, rfl⟩
  exact ⟨h.1, h.2, by rw [h.2]⟩

/-- C9 on a form with a title and a price and no file. -/
theorem post_without_img_rejected_witness :
    (portfolioHandler
      { sscanf := fun _ => some 5, create := none, copy := none,
        insert := InsertFaults.healthy, query := QueryFaults.healthy }
      ⟨⟨[], 0⟩, []⟩
      { Method := "POST", parseMultipartForm := none,
        FormValue := fun k => if k = "title" then "Logo" else "5", img := none }).1.status = 400 :=
  (post_without_img_rejected _ ⟨⟨[], 0⟩, []⟩ _ rfl rfl).1

/-- C10. For a POST whose form is parsed and whose `img` file is created in the image
directory, the image reference is never empty, the response is 400 `missing title or img`
exactly when `title` is empty (and no other 400 is sent), and in that case the database is
as before while the uploaded file is in the image directory. -/
theorem post_missing_title_after_save (E : HandlerEnv) (s : Server) (r : Request)
    (h : FileHeader) (hpost : r.Method = "POST") (hparse : r.parseMultipartForm = none)
    (himg : r.img = some h) (hcreate : E.create = none) :
    "/assets/img/portfolio/" ++ h.Filename ≠ "" ∧
    ((portfolioHandler E s r).1 = ⟨400, Body.text "missing title or img"⟩ ↔
      r.FormValue "title" = "") ∧
    ((portfolioHandler E s r).1.status = 400 ↔ r.FormValue "title" = "") ∧
    (r.FormValue "title" = "" →
      (portfolioHandler E s r).2.db = s.db ∧
      ∃ c, ("../assets/img/portfolio/" ++ h.Filename, c) ∈ (portfolioHandler E s r).2.files) := by
  have hne : "/assets/img/portfolio/" ++ h.Filename ≠ "" := by
    intro habs
    have hlen := congrArg String.length habs
    simp only [String.length_append] at hlen
    have h22 : "/assets/img/portfolio/".length = 22 := by decide
    have h0 : "".length = 0 := by decide
    omega
  rw [portfolioHandler_post E s r h hpost hparse himg hcreate]
  by_cases ht : r.FormValue "title" = ""
  · have hmiss : r.FormValue "title" = "" ∨ "/assets/img/portfolio/" ++ h.Filename = "" :=
      Or.inl ht
    rw [if_pos hmiss]
    refine ⟨hne, ⟨fun _ => ht, fun _ => rfl⟩, ⟨fun _ => ht, fun _ => rfl⟩, ?_⟩
    intro _
    refine ⟨rfl, ?_⟩
    simp only [ioCopy, List.map_cons, if_true]
    exact ⟨_, List.mem_cons_self _ _⟩
  · have hmiss : ¬ (r.FormValue "title" = "" ∨ "/assets/img/portfolio/" ++ h.Filename = "") :=
      fun hh => hh.elim ht hne
    rw [if_neg hmiss]
    refine ⟨hne, ?_, ?_, fun hh => absurd hh ht⟩
    · cases InsertPortfolio E.insert s.db
          ⟨1, r.FormValue "title", r.FormValue "category",
            (E.sscanf (r.FormValue "prix")).getD 0,
            "/assets/img/portfolio/" ++ h.Filename⟩ with
      | mk err res =>
        obtain ⟨db1, it1⟩ := res
        cases err <;> simp [ht]
    · cases InsertPortfolio E.insert s.db
          ⟨1, r.FormValue "title", r.FormValue "category",
            (E.sscanf (r.FormValue "prix")).getD 0,
            "/assets/img/portfolio/" ++ h.Filename⟩ with
      | mk err res =>
        obtain ⟨db1, it1⟩ := res
        cases err <;> simp [ht]

/-- C10 on a form with an empty title and the file `a.png`. -/
theorem post_missing_title_after_save_witness :
    (portfolioHandler
      { sscanf := fun _ => none, create := none, copy := none,
        insert := InsertFaults.healthy, query := QueryFaults.healthy }
      ⟨⟨[], 0⟩, []⟩
      { Method := "POST", parseMultipartForm := none, FormValue := fun _ => "",
        img := some ⟨"a.png", "bytes"⟩ }) =
      (⟨400, Body.text "missing title or img"⟩,
        ⟨⟨[], 0⟩, [("../assets/img/portfolio/a.png", "bytes")]⟩) ∧
    ((portfolioHandler
      { sscanf := fun _ => none, create := none, copy := none,
        insert := InsertFaults.healthy, query := QueryFaults.healthy }
      ⟨⟨[], 0⟩, []⟩
      { Method := "POST", parseMultipartForm := none, FormValue := fun _ => "",
        img := some ⟨"a.png", "bytes"⟩ }).1.status = 400 ↔ "" = "") :=
  ⟨by decide,
   (post_missing_title_after_save
      { sscanf := fun _ => none, create := none, copy := none,
        insert := InsertFaults.healthy, query := QueryFaults.healthy }
      ⟨⟨[], 0⟩, []⟩
      { Method := "POST", parseMultipartForm := none, FormValue := fun _ => "",
        img := some ⟨"a.png", "bytes"⟩ }
      ⟨"a.png", "bytes"⟩ rfl rfl rfl rfl).2.2.1⟩

end Portfolio
